import Mathlib

/-!
Verification development for the spherex-doc-portal ingestion core.

The definitions below are a shallow embedding of the repository's Python
sources:

* `src/spherexportal/domain.py` — the domain models (documents per category);
* `src/spherexportal/repositories/projects.py` — the Redis-backed keyed
  category store (`SpherexProjectStore.get_all` / `upsert`);
* `src/spherexportal/services/projectservice.py` — the ingestion
  orchestrator (`bootstrap_from_api`, `_ingest_project`, the per-category
  `_ingest_ssdc_*` normalizers, and the GitHub metadata helpers);
* `src/spherexportal/repositories/mockdata.py` — the mock/seed loader models.

External collaborators (the LTD HTTP API, the S3 bucket, the GitHub API and
the `spherexlander` metadata parsers) are modelled at their interface
boundary: fetches become functions supplied by an `Env` record, returning the
parsed values the service code reads, or a typed `MetadataError`.  Timestamps
are modelled as integers (only construction and propagation matter here);
Python strings are modelled as `String`, with slicing/splitting helpers
mirroring Python semantics on code points.
-/

namespace SpherexPortal

/-! ### Python string helpers -/

/-- Python `s[:n]` slicing (first `n` code points). -/
def pyTake (s : String) (n : Nat) : String :=
  (s.toList.take n).asString

/-- Python `s[:-n]` slicing (drop the last `n` code points). -/
def pyDropRight (s : String) (n : Nat) : String :=
  (s.toList.take (s.toList.length - n)).asString

/-- Python `s.lstrip("L")`: drop all leading `L` characters. -/
def lstripL (s : String) : String :=
  (s.toList.dropWhile (fun c => c = 'L')).asString

/-- Python `s.rstrip("/")`: drop all trailing `/` characters. -/
def rstripSlash (s : String) : String :=
  ((s.toList.reverse.dropWhile (fun c => c = '/')).reverse).asString

/-- Python `int(s)` on a decimal string, as used by pydantic coercion.  The
source raises a validation error on non-numeric input; no claim depends on
that branch, so the model defaults to `0` there. -/
def pyIntOfString (s : String) : Int :=
  s.toInt?.getD 0

/-- Python `s.startswith(p)`. -/
def pyStartsWith (s p : String) : Bool :=
  p.toList.isPrefixOf s.toList

/-- Python `s.endswith(p)`. -/
def pyEndsWith (s p : String) : Bool :=
  p.toList.isSuffixOf s.toList

/-- Python `str.split` with a one-character separator, on character lists:
every occurrence of the separator ends a chunk, and empty chunks are kept
(`"a//b/".split("/") == ["a", "", "b", ""]`). -/
def splitOnCharList (sep : Char) : List Char → List (List Char)
  | [] => [[]]
  | c :: cs =>
    let r := splitOnCharList sep cs
    if c = sep then [] :: r
    else
      match r with
      | [] => [[c]]
      | h :: t => (c :: h) :: t

/-- Python `s.split("/")`. -/
def pySplitSlash (s : String) : List String :=
  (splitOnCharList '/' s.toList).map List.asString

/-! ### Domain models (`src/spherexportal/domain.py`) -/

/-- Summary info about GitHub issues (`GitHubIssueCount`). -/
structure GitHubIssueCount where
  open_issue_count : Int
  open_pr_count : Int
  issue_url : String
  pr_url : String
deriving DecidableEq, Repr

/-- Summary of the latest GitHub release (`GitHubRelease`). -/
structure GitHubRelease where
  tag : String
  date_created : Int
deriving DecidableEq, Repr

/-- Base project entity (`SpherexProject`). -/
structure SpherexProject where
  url : String
  title : String
  project_id : String
  organization_id : String
deriving DecidableEq, Repr

/-- GitHub-based project (`SpherexGitHubProject`). -/
structure SpherexGitHubProject extends SpherexProject where
  github_url : String
  github_issues : GitHubIssueCount
  latest_commit_datetime : Int
  github_release : Option GitHubRelease
deriving DecidableEq, Repr

/-- General SPHEREx document (`SpherexDocument`). -/
structure SpherexDocument extends SpherexGitHubProject where
  series : String
  handle : String
  ssdc_author_name : String
deriving DecidableEq, Repr

/-- Module specification document (`SpherexMsDocument`). -/
structure SpherexMsDocument extends SpherexDocument where
  project_contact_name : String
  diagram_index : Int
  pipeline_level : Int
  approval_str : Option String
  difficulty : String
deriving DecidableEq, Repr

/-- Project management document (`SpherexPmDocument`). -/
structure SpherexPmDocument extends SpherexDocument where
  approval_str : Option String
deriving DecidableEq, Repr

/-- Interface document (`SpherexIfDocument`). -/
structure SpherexIfDocument extends SpherexDocument where
  approval_str : Option String
  interface_partner_name : String
deriving DecidableEq, Repr

/-- Data product document (`SpherexDpDocument`). -/
structure SpherexDpDocument extends SpherexDocument where
  approval_str : Option String
deriving DecidableEq, Repr

/-- Test report document (`SpherexTrDocument`). -/
structure SpherexTrDocument extends SpherexDocument where
  approval_str : Option String
  va_doors_id : Option String
  req_doors_id : Option String
  ipac_jira_id : Option String
deriving DecidableEq, Repr

/-- Technical note document (`SpherexTnDocument`). -/
structure SpherexTnDocument extends SpherexDocument where
deriving DecidableEq, Repr

/-- Operations note document (`SpherexOpDocument`). -/
structure SpherexOpDocument extends SpherexDocument where
deriving DecidableEq, Repr

/-! ### Category store (`src/spherexportal/repositories/projects.py`)

The Redis-backed `SpherexProjectStore` is a keyed map from `project_id`
strings to documents.  It is modelled as an association list whose key order
records insertion order; `store` (Redis `SET`) replaces the value in place
when the key exists and appends otherwise.  API-reachable stores always have
pairwise-distinct keys. -/

/-- Keys of the store, in insertion order. -/
def storeKeys {α : Type} (s : List (String × α)) : List String :=
  s.map Prod.fst

/-- Redis keyed write: replace the entry in place if the key is present,
append otherwise (`PydanticRedisStorage.store`). -/
def storeSet {α : Type} (s : List (String × α)) (k : String) (v : α) :
    List (String × α) :=
  if k ∈ storeKeys s then
    s.map (fun e => if e.1 = k then (k, v) else e)
  else
    s ++ [(k, v)]

/-- Redis keyed read (`PydanticRedisStorage.get`). -/
def lookupKey {α : Type} (s : List (String × α)) (k : String) : Option α :=
  match s with
  | [] => none
  | e :: rest => if e.1 = k then some e.2 else lookupKey rest k

/-- Apply an ordered list of keyed writes to a store. -/
def applyAll {α : Type} (ps : List (String × α)) (s : List (String × α)) :
    List (String × α) :=
  ps.foldl (fun t p => storeSet t p.1 p.2) s

/-- Boolean lexicographic comparison of character lists by code point, the
order Python uses to compare strings. -/
def charListLe : List Char → List Char → Bool
  | [], _ => true
  | _ :: _, [] => false
  | a :: as, b :: bs =>
    if a < b then true
    else if b < a then false
    else charListLe as bs

/-- Python string comparison `a <= b` (lexicographic on code points); it
agrees with Lean's `String` order (`strLe_iff_le` below). -/
def strLe (a b : String) : Prop :=
  charListLe a.toList b.toList = true

instance : DecidableRel strLe := fun a b =>
  inferInstanceAs (Decidable (charListLe a.toList b.toList = true))

/-- Python `list.sort()` on strings: ascending lexicographic order. -/
def sortedKeys (ks : List String) : List String :=
  List.insertionSort strLe ks

/-- Model of `SpherexProjectStore.get_all`: scan all keys, sort them, and
fetch each key's value. -/
def getAll {α : Type} (s : List (String × α)) : List α :=
  (sortedKeys (storeKeys s)).filterMap (fun k => lookupKey s k)

/-- Model of `SpherexProjectStore.upsert`: store under the document's
`project_id`.  `pid` is the `project_id` accessor of the document type. -/
def upsert {α : Type} (pid : α → String) (s : List (String × α)) (d : α) :
    List (String × α) :=
  storeSet s (pid d) d

/-- Upsert a list of documents in order. -/
def upsertAll {α : Type} (pid : α → String) (ds : List α)
    (s : List (String × α)) : List (String × α) :=
  ds.foldl (upsert pid) s

/-- The per-category stores of `ProjectRepository`
(`src/spherexportal/repositories/projects.py`). -/
@[ext]
structure ProjectRepository where
  ssdc_ms : List (String × SpherexMsDocument)
  ssdc_pm : List (String × SpherexPmDocument)
  ssdc_if : List (String × SpherexIfDocument)
  ssdc_dp : List (String × SpherexDpDocument)
  ssdc_tr : List (String × SpherexTrDocument)
  ssdc_tn : List (String × SpherexTnDocument)
  ssdc_op : List (String × SpherexOpDocument)
deriving DecidableEq, Repr

/-! ### External interface models

Shapes of the values the service code reads from its collaborators:
the LTD HTTP API (`repositories/ltdapi.py`), the GitHub App API
(`githubapi.py` plus the gidgethub client), the S3 metadata objects parsed by
the `spherexlander` models, and the typed failure `MetadataError`
(`repositories/s3metadata.py`).  Only the fields the ingestion code
dereferences are modelled. -/

instance {ε α : Type} [DecidableEq ε] [DecidableEq α] :
    DecidableEq (Except ε α) := fun x y => by
  cases x <;> cases y
  case error.error a b =>
    exact if h : a = b then isTrue (by rw [h]) else isFalse (by simp [h])
  case error.ok a b => exact isFalse (by simp)
  case ok.error a b => exact isFalse (by simp)
  case ok.ok a b =>
    exact if h : a = b then isTrue (by rw [h]) else isFalse (by simp [h])

/-- The LTD edition resource; only `date_rebuilt` is read. -/
structure LtdEditionModel where
  date_rebuilt : Int
deriving DecidableEq, Repr

/-- The LTD project resource; only `slug` and `default_edition` are read. -/
structure LtdProjectModel where
  slug : String
  default_edition : LtdEditionModel
deriving DecidableEq, Repr

/-- The LTD organization resource; only `slug` and `s3_bucket` are read. -/
structure LtdOrganizationModel where
  slug : String
  s3_bucket : Option String
deriving DecidableEq, Repr

/-- The typed per-project failure raised by the S3 metadata client
(`MetadataError`): reason, document handle, and the stringified cause. -/
structure MetadataError where
  reason : String
  handle : String
  excMessage : String
deriving DecidableEq, Repr

/-- The message attached by `MetadataError.__init__`. -/
def MetadataError.message (e : MetadataError) : String :=
  "Metadata error in " ++ e.handle ++ ": " ++ e.reason ++ "\n" ++ e.excMessage

/-- Approval record inside lander metadata (`ApprovalInfo`). -/
structure ApprovalInfo where
  date : String
  name : String
deriving DecidableEq, Repr

/-- One entry of a lander metadata authors list. -/
structure Author where
  name : String
  role : String
deriving DecidableEq, Repr

/-- Fields shared by all `spherexlander` metadata models that the ingestion
code reads.  `document_handle_code` models the source field named
`document_handle_prefix` (the series part of the handle). -/
structure LanderBaseMeta where
  canonical_url : String
  document_handle_code : String
  identifier : String
  title : String
  repository_url : String
  authors : List Author
deriving DecidableEq, Repr

/-- Lander metadata for a module specification
(`SpherexPipelineModuleMetadata`).  `pipeline_level` may arrive as an integer
or as an `L`-prefixed string. -/
structure LanderMsMeta extends LanderBaseMeta where
  diagram_index : Int
  pipeline_level : Int ⊕ String
  approval : Option ApprovalInfo
  difficulty : String
deriving DecidableEq, Repr

/-- Lander metadata for a project management document. -/
structure LanderPmMeta extends LanderBaseMeta where
  approval : Option ApprovalInfo
deriving DecidableEq, Repr

/-- Lander metadata for an interface document. -/
structure LanderIfMeta extends LanderBaseMeta where
  approval : Option ApprovalInfo
  interface_partner : String
deriving DecidableEq, Repr

/-- Lander metadata for a data product document. -/
structure LanderDpMeta extends LanderBaseMeta where
  approval : Option ApprovalInfo
deriving DecidableEq, Repr

/-- Lander metadata for a test report document. -/
structure LanderTrMeta extends LanderBaseMeta where
  approval : Option ApprovalInfo
  va_doors_id : Option String
  req_doors_id : Option String
  ipac_jira_id : Option String
deriving DecidableEq, Repr

/-- Lander metadata for a technical note. -/
structure LanderTnMeta extends LanderBaseMeta where
deriving DecidableEq, Repr

/-- Lander metadata for an operations note. -/
structure LanderOpMeta extends LanderBaseMeta where
deriving DecidableEq, Repr

/-- A GitHub repository resource (`GitHubRepositoryModel`); the code reads
`owner.login`, `name` and `pushed_at`. -/
structure GitHubRepositoryModel where
  ownerLogin : String
  name : String
  pushed_at : Int
deriving DecidableEq, Repr

/-- One item of the paginated `/issues?state=open` listing; the code only
asks whether the item carries a `pull_request` field. -/
structure IssueItem where
  has_pull_request : Bool
deriving DecidableEq, Repr

/-- A GitHub release resource (`GitHubReleaseModel`); the code reads
`tag_name` and `published_at`. -/
structure GitHubReleaseModel where
  tag_name : String
  published_at : Int
deriving DecidableEq, Repr

/-- The data reachable through an installation client for one repository:
the repository descriptor, the open-issues listing, and the latest
release. -/
structure GithubClientData where
  repo : GitHubRepositoryModel
  issues : List IssueItem
  latestRelease : GitHubReleaseModel
deriving DecidableEq, Repr

/-- Log events the ingestion code emits at warning level: the
`MetadataError` catch in `_ingest_project` (which references the project
slug) and the installation-client failure in `_create_github_repo_client`
(which references only the repository URL).  Debug/info logs are not
modelled. -/
inductive LogEvent where
  | metadataWarning (slug : String) (details : String)
  | clientWarning (repoUrl : String)
deriving DecidableEq, Repr

/-- The fixed upstream world one run observes: the organization descriptor,
the project list, the per-project metadata objects (one fetch-and-parse
function per lander model, keyed by project slug), and the GitHub App
environment (whether a client factory is configured, and the result of
creating an installation client for an owner/repo pair). -/
structure Env where
  org : LtdOrganizationModel
  projects : List LtdProjectModel
  githubFactoryConfigured : Bool
  installationClient : String → String → Except Unit GithubClientData
  fetchMs : String → Except MetadataError LanderMsMeta
  fetchPm : String → Except MetadataError LanderPmMeta
  fetchIf : String → Except MetadataError LanderIfMeta
  fetchDp : String → Except MetadataError LanderDpMeta
  fetchTr : String → Except MetadataError LanderTrMeta
  fetchTn : String → Except MetadataError LanderTnMeta
  fetchOp : String → Except MetadataError LanderOpMeta

/-- The configuration fields `bootstrap_from_api` checks
(`src/spherexportal/config.py`). -/
structure PortalConfig where
  aws_access_key_id : Option String
  aws_access_key_secret : Option String
deriving DecidableEq, Repr

/-- Mutable state threaded through a run: the category stores, the warnings
logged so far, and a trace of the project slugs for which a per-project
metadata fetch was attempted. -/
structure RunState where
  repo : ProjectRepository
  warnings : List LogEvent
  fetched : List String
deriving DecidableEq, Repr

/-! ### Project service (`src/spherexportal/services/projectservice.py`) -/

/-- Model of `_parse_github_repo_url`: slice the first 19 characters of the
URL, split on `/`, and take the first two parts as owner and repo, trimming
a `.git` or `.git/` suffix from the repo part.  The Python original unpacks
exactly two values and raises a `ValueError` when the split yields fewer;
the model returns `""` for a missing part (no claim exercises that
branch). -/
def parseGithubRepoUrl (repoUrl : String) : String × String :=
  let parts := pySplitSlash (pyTake repoUrl 19)
  let owner := parts.getD 0 ""
  let repo0 := parts.getD 1 ""
  let repo :=
    if pyEndsWith repo0 ".git" then pyDropRight repo0 4
    else if pyEndsWith repo0 ".git/" then pyDropRight repo0 5
    else repo0
  (owner, repo)

/-- Model of `_create_github_repo_client`: `none` when no repo URL is given,
no factory is configured, or the URL is not a `https://github.com/` URL;
otherwise ask the environment for an installation client for the parsed
owner/repo pair.  A factory exception yields `none` plus a warning that
references the repository URL. -/
def createGithubRepoClient (env : Env) (repoUrl : Option String) :
    Option GithubClientData × List LogEvent :=
  match repoUrl with
  | none => (none, [])
  | some url =>
    if env.githubFactoryConfigured = false then (none, [])
    else if pyStartsWith url "https://github.com/" = false then (none, [])
    else
      let ownerRepo := parseGithubRepoUrl url
      match env.installationClient ownerRepo.1 ownerRepo.2 with
      | Except.ok c => (some c, [])
      | Except.error _ => (none, [LogEvent.clientWarning url])

/-- The issue/PR classification loop inside `_get_github_issue_count`: fold
over the paginated open-issues listing, counting items without a
`pull_request` field as issues and items with one as pull requests. -/
def issueClassifyCounts (items : List IssueItem) : Int × Int :=
  items.foldl
    (fun c item =>
      if item.has_pull_request then (c.1, c.2 + 1) else (c.1 + 1, c.2))
    (0, 0)

/-- Model of `_get_github_issue_count`.  The source pages through the issues
endpoint accumulating `issue_count` and `pr_count`, then constructs the
result with literal zeros, discarding the accumulated counters. -/
def getGithubIssueCount (repo : GitHubRepositoryModel)
    (items : List IssueItem) : GitHubIssueCount :=
  let _counts := issueClassifyCounts items
  { open_issue_count := 0
    open_pr_count := 0
    issue_url :=
      "https://github.com/" ++ repo.ownerLogin ++ "/" ++ repo.name ++ "/issues"
    pr_url :=
      "https://github.com/" ++ repo.ownerLogin ++ "/" ++ repo.name ++ "/pulls" }

/-- Model of `_get_github_release`: read the latest release and keep its tag
and publish timestamp. -/
def getGithubRelease (c : GithubClientData) : GitHubRelease :=
  { tag := c.latestRelease.tag_name
    date_created := c.latestRelease.published_at }

/-- Model of `_get_common_github_metadata`: try to create an installation
client for the repository URL; without one, substitute the defaults (zero
counts, URLs derived from the repository URL, no release, the caller-supplied
fallback timestamp); with one, fetch the repository descriptor, issue counts
and latest release, and use the repository's last-push timestamp. -/
def getCommonGithubMetadata (env : Env) (repository_url : String)
    (default_updated_datetime : Int) :
    (GitHubIssueCount × Option GitHubRelease × Int) × List LogEvent :=
  let created := createGithubRepoClient env (some repository_url)
  match created.1 with
  | none =>
    (({ open_issue_count := 0
        open_pr_count := 0
        issue_url := repository_url ++ "/issues"
        pr_url := repository_url ++ "/pulls" },
      none, default_updated_datetime), created.2)
  | some c =>
    let repo_data := c.repo
    ((getGithubIssueCount repo_data c.issues,
      some (getGithubRelease c), repo_data.pushed_at), created.2)

/-- Model of `_format_lander_approval_str`: render an approval record as
`"{date}, {name}"`, or nothing when absent. -/
def formatLanderApprovalStr (approval : Option ApprovalInfo) :
    Option String :=
  match approval with
  | none => none
  | some a => some (a.date ++ ", " ++ a.name)

/-- Model of `_get_ssdc_lead`: the first author with role `IPAC Lead`, or
the empty string. -/
def getSsdcLead (authors : List Author) : String :=
  match authors.find? (fun a => a.role = "IPAC Lead") with
  | some a => a.name
  | none => ""

/-- Model of `_get_spherex_lead`: the first author with role `SPHEREx Lead`,
or the empty string. -/
def getSpherexLead (authors : List Author) : String :=
  match authors.find? (fun a => a.role = "SPHEREx Lead") with
  | some a => a.name
  | none => ""

/-- The pipeline-level normalization in `_ingest_ssdc_ms`: keep an integer
as is, otherwise strip the `L` prefix and coerce the string to an
integer. -/
def pipelineLevelValue : Int ⊕ String → Int
  | Sum.inl n => n
  | Sum.inr s => pyIntOfString (lstripL s)

/-- Model of `_ingest_ssdc_ms` up to the store write: fetch the lander
metadata (propagating `MetadataError`), fetch the common GitHub metadata,
and build the document.  The produced warnings accompany the document. -/
def ingestSsdcMs (env : Env) (project : LtdProjectModel)
    (org : LtdOrganizationModel) :
    Except MetadataError (SpherexMsDocument × List LogEvent) :=
  match env.fetchMs project.slug with
  | Except.error e => Except.error e
  | Except.ok m =>
    let common := getCommonGithubMetadata env m.repository_url
      project.default_edition.date_rebuilt
    Except.ok
      ({ url := m.canonical_url
         series := m.document_handle_code
         handle := m.identifier
         title := m.title
         project_id := project.slug
         organization_id := org.slug
         github_url := m.repository_url
         github_issues := common.1.1
         github_release := common.1.2.1
         latest_commit_datetime := common.1.2.2
         ssdc_author_name := getSsdcLead m.authors
         project_contact_name := getSpherexLead m.authors
         diagram_index := m.diagram_index
         pipeline_level := pipelineLevelValue m.pipeline_level
         approval_str := formatLanderApprovalStr m.approval
         difficulty := m.difficulty }, common.2)

/-- Model of `_ingest_ssdc_pm` up to the store write. -/
def ingestSsdcPm (env : Env) (project : LtdProjectModel)
    (org : LtdOrganizationModel) :
    Except MetadataError (SpherexPmDocument × List LogEvent) :=
  match env.fetchPm project.slug with
  | Except.error e => Except.error e
  | Except.ok m =>
    let common := getCommonGithubMetadata env m.repository_url
      project.default_edition.date_rebuilt
    Except.ok
      ({ url := m.canonical_url
         series := m.document_handle_code
         handle := m.identifier
         title := m.title
         project_id := project.slug
         organization_id := org.slug
         github_url := m.repository_url
         github_issues := common.1.1
         github_release := common.1.2.1
         latest_commit_datetime := common.1.2.2
         ssdc_author_name := getSsdcLead m.authors
         approval_str := formatLanderApprovalStr m.approval }, common.2)

/-- Model of `_ingest_ssdc_if` up to the store write.  Note the source sets
`latest_commit_datetime` to the default edition's rebuild date directly. -/
def ingestSsdcIf (env : Env) (project : LtdProjectModel)
    (org : LtdOrganizationModel) :
    Except MetadataError (SpherexIfDocument × List LogEvent) :=
  match env.fetchIf project.slug with
  | Except.error e => Except.error e
  | Except.ok m =>
    let common := getCommonGithubMetadata env m.repository_url
      project.default_edition.date_rebuilt
    Except.ok
      ({ url := m.canonical_url
         series := m.document_handle_code
         handle := m.identifier
         title := m.title
         project_id := project.slug
         organization_id := org.slug
         github_url := m.repository_url
         github_issues := common.1.1
         github_release := common.1.2.1
         latest_commit_datetime := project.default_edition.date_rebuilt
         ssdc_author_name := getSsdcLead m.authors
         approval_str := formatLanderApprovalStr m.approval
         interface_partner_name := m.interface_partner }, common.2)

/-- Model of `_ingest_ssdc_dp` up to the store write. -/
def ingestSsdcDp (env : Env) (project : LtdProjectModel)
    (org : LtdOrganizationModel) :
    Except MetadataError (SpherexDpDocument × List LogEvent) :=
  match env.fetchDp project.slug with
  | Except.error e => Except.error e
  | Except.ok m =>
    let common := getCommonGithubMetadata env m.repository_url
      project.default_edition.date_rebuilt
    Except.ok
      ({ url := m.canonical_url
         series := m.document_handle_code
         handle := m.identifier
         title := m.title
         project_id := project.slug
         organization_id := org.slug
         github_url := m.repository_url
         github_issues := common.1.1
         github_release := common.1.2.1
         latest_commit_datetime := common.1.2.2
         ssdc_author_name := getSsdcLead m.authors
         approval_str := formatLanderApprovalStr m.approval }, common.2)

/-- Model of `_ingest_ssdc_tr` up to the store write. -/
def ingestSsdcTr (env : Env) (project : LtdProjectModel)
    (org : LtdOrganizationModel) :
    Except MetadataError (SpherexTrDocument × List LogEvent) :=
  match env.fetchTr project.slug with
  | Except.error e => Except.error e
  | Except.ok m =>
    let common := getCommonGithubMetadata env m.repository_url
      project.default_edition.date_rebuilt
    Except.ok
      ({ url := m.canonical_url
         series := m.document_handle_code
         handle := m.identifier
         title := m.title
         project_id := project.slug
         organization_id := org.slug
         github_url := m.repository_url
         github_issues := common.1.1
         github_release := common.1.2.1
         latest_commit_datetime := common.1.2.2
         ssdc_author_name := getSsdcLead m.authors
         approval_str := formatLanderApprovalStr m.approval
         va_doors_id := m.va_doors_id
         req_doors_id := m.req_doors_id
         ipac_jira_id := m.ipac_jira_id }, common.2)

/-- Model of `_ingest_ssdc_tn` up to the store write. -/
def ingestSsdcTn (env : Env) (project : LtdProjectModel)
    (org : LtdOrganizationModel) :
    Except MetadataError (SpherexTnDocument × List LogEvent) :=
  match env.fetchTn project.slug with
  | Except.error e => Except.error e
  | Except.ok m =>
    let common := getCommonGithubMetadata env m.repository_url
      project.default_edition.date_rebuilt
    Except.ok
      ({ url := m.canonical_url
         series := m.document_handle_code
         handle := m.identifier
         title := m.title
         project_id := project.slug
         organization_id := org.slug
         github_url := m.repository_url
         github_issues := common.1.1
         github_release := common.1.2.1
         latest_commit_datetime := common.1.2.2
         ssdc_author_name := getSsdcLead m.authors }, common.2)

/-- Model of `_ingest_ssdc_op` up to the store write.  As for interface
documents, `latest_commit_datetime` is the default edition's rebuild date. -/
def ingestSsdcOp (env : Env) (project : LtdProjectModel)
    (org : LtdOrganizationModel) :
    Except MetadataError (SpherexOpDocument × List LogEvent) :=
  match env.fetchOp project.slug with
  | Except.error e => Except.error e
  | Except.ok m =>
    let common := getCommonGithubMetadata env m.repository_url
      project.default_edition.date_rebuilt
    Except.ok
      ({ url := m.canonical_url
         series := m.document_handle_code
         handle := m.identifier
         title := m.title
         project_id := project.slug
         organization_id := org.slug
         github_url := m.repository_url
         github_issues := common.1.1
         github_release := common.1.2.1
         latest_commit_datetime := project.default_edition.date_rebuilt
         ssdc_author_name := getSsdcLead m.authors }, common.2)

/-- A category-tagged document write, produced by one per-category ingest. -/
inductive CatWrite where
  | ms : SpherexMsDocument → CatWrite
  | pm : SpherexPmDocument → CatWrite
  | ifc : SpherexIfDocument → CatWrite
  | dp : SpherexDpDocument → CatWrite
  | tr : SpherexTrDocument → CatWrite
  | tn : SpherexTnDocument → CatWrite
  | op : SpherexOpDocument → CatWrite
deriving DecidableEq, Repr

/-- The store key (the document's `project_id`) of a write. -/
def CatWrite.key : CatWrite → String
  | .ms d => d.project_id
  | .pm d => d.project_id
  | .ifc d => d.project_id
  | .dp d => d.project_id
  | .tr d => d.project_id
  | .tn d => d.project_id
  | .op d => d.project_id

/-- The `github_url` field of the written document. -/
def CatWrite.githubUrl : CatWrite → String
  | .ms d => d.github_url
  | .pm d => d.github_url
  | .ifc d => d.github_url
  | .dp d => d.github_url
  | .tr d => d.github_url
  | .tn d => d.github_url
  | .op d => d.github_url

/-- The `github_issues` field of the written document. -/
def CatWrite.githubIssues : CatWrite → GitHubIssueCount
  | .ms d => d.github_issues
  | .pm d => d.github_issues
  | .ifc d => d.github_issues
  | .dp d => d.github_issues
  | .tr d => d.github_issues
  | .tn d => d.github_issues
  | .op d => d.github_issues

/-- The `github_release` field of the written document. -/
def CatWrite.githubRelease : CatWrite → Option GitHubRelease
  | .ms d => d.github_release
  | .pm d => d.github_release
  | .ifc d => d.github_release
  | .dp d => d.github_release
  | .tr d => d.github_release
  | .tn d => d.github_release
  | .op d => d.github_release

/-- The `latest_commit_datetime` field of the written document. -/
def CatWrite.latestCommit : CatWrite → Int
  | .ms d => d.latest_commit_datetime
  | .pm d => d.latest_commit_datetime
  | .ifc d => d.latest_commit_datetime
  | .dp d => d.latest_commit_datetime
  | .tr d => d.latest_commit_datetime
  | .tn d => d.latest_commit_datetime
  | .op d => d.latest_commit_datetime

/-- The slug-prefix dispatch chain of `_ingest_project`: `none` when the
slug matches no category code (the project is skipped), otherwise the
outcome of the matching category's ingest. -/
def ingestResult (env : Env) (org : LtdOrganizationModel)
    (project : LtdProjectModel) :
    Option (Except MetadataError (CatWrite × List LogEvent)) :=
  if pyStartsWith project.slug "ssdc-ms" then
    some ((ingestSsdcMs env project org).map (fun r => (CatWrite.ms r.1, r.2)))
  else if pyStartsWith project.slug "ssdc-pm" then
    some ((ingestSsdcPm env project org).map (fun r => (CatWrite.pm r.1, r.2)))
  else if pyStartsWith project.slug "ssdc-if" then
    some ((ingestSsdcIf env project org).map (fun r => (CatWrite.ifc r.1, r.2)))
  else if pyStartsWith project.slug "ssdc-dp" then
    some ((ingestSsdcDp env project org).map (fun r => (CatWrite.dp r.1, r.2)))
  else if pyStartsWith project.slug "ssdc-tr" then
    some ((ingestSsdcTr env project org).map (fun r => (CatWrite.tr r.1, r.2)))
  else if pyStartsWith project.slug "ssdc-tn" then
    some ((ingestSsdcTn env project org).map (fun r => (CatWrite.tn r.1, r.2)))
  else if pyStartsWith project.slug "ssdc-op" then
    some ((ingestSsdcOp env project org).map (fun r => (CatWrite.op r.1, r.2)))
  else
    none

/-- Upsert a category-tagged write into the matching store. -/
def applyWrite (repo : ProjectRepository) : CatWrite → ProjectRepository
  | .ms d => { repo with ssdc_ms := storeSet repo.ssdc_ms d.project_id d }
  | .pm d => { repo with ssdc_pm := storeSet repo.ssdc_pm d.project_id d }
  | .ifc d => { repo with ssdc_if := storeSet repo.ssdc_if d.project_id d }
  | .dp d => { repo with ssdc_dp := storeSet repo.ssdc_dp d.project_id d }
  | .tr d => { repo with ssdc_tr := storeSet repo.ssdc_tr d.project_id d }
  | .tn d => { repo with ssdc_tn := storeSet repo.ssdc_tn d.project_id d }
  | .op d => { repo with ssdc_op := storeSet repo.ssdc_op d.project_id d }

/-- Model of `_ingest_project`: dispatch by slug, upsert the produced
document, record the fetch attempt, and turn a `MetadataError` into a single
warning that references the project's slug (the run never raises). -/
def ingestProject (env : Env) (org : LtdOrganizationModel) (s : RunState)
    (project : LtdProjectModel) : RunState :=
  match ingestResult env org project with
  | none => s
  | some (Except.error e) =>
    { s with
      warnings :=
        s.warnings ++ [LogEvent.metadataWarning project.slug e.message]
      fetched := s.fetched ++ [project.slug] }
  | some (Except.ok r) =>
    { s with
      repo := applyWrite s.repo r.1
      warnings := s.warnings ++ r.2
      fetched := s.fetched ++ [project.slug] }

/-- The error message raised when the object-store key pair is missing. -/
def awsKeysMessage : String :=
  "PORTAL_AWS_ACCESS_KEY_ID and PORTAL_AWS_ACCESS_KEY_SECRET " ++
    "are needed to bootstrap metadata"

/-- Model of `bootstrap_from_api`: fetch the organization descriptor, fail
the whole run if the object-store key pair is not configured, resolve the
bucket (falling back to the fixed default name), fetch the project list, and
ingest each project in order.  The GitHub App installation listing only logs
at info level and is not modelled. -/
def bootstrapFromApi (cfg : PortalConfig) (env : Env) (s : RunState) :
    Except String Unit × RunState :=
  let org := env.org
  match cfg.aws_access_key_id, cfg.aws_access_key_secret with
  | some _, some _ =>
    let _bucketName := org.s3_bucket.getD "spherex-docs"
    (Except.ok (), env.projects.foldl (ingestProject env org) s)
  | none, _ => (Except.error awsKeysMessage, s)
  | _, none => (Except.error awsKeysMessage, s)

/-! ### Mock/seed loader (`src/spherexportal/repositories/mockdata.py`) -/

/-- Common attributes of all seed entries (`BaseProjectModel`). -/
structure MockBaseProjectModel where
  title : String
  project_id : String
  organization_id : String
deriving DecidableEq, Repr

/-- The derived `url` property of a seed entry. -/
def MockBaseProjectModel.url (m : MockBaseProjectModel) : String :=
  "https://spherex-docs.ipac.caltech.edu/" ++ m.project_id

/-- GitHub fields of a seed entry (`BaseGitHubProjectModel`). -/
structure MockGitHubProjectModel extends MockBaseProjectModel where
  github_url : String
  issues : Int
  prs : Int
  commit_date : Int
  tag : Option String
  tag_date : Option Int
deriving DecidableEq, Repr

/-- The derived `github_issues` property of a seed entry. -/
def MockGitHubProjectModel.githubIssues (m : MockGitHubProjectModel) :
    GitHubIssueCount :=
  let github_url := rstripSlash m.github_url
  { open_issue_count := m.issues
    open_pr_count := m.prs
    issue_url := github_url ++ "/issues"
    pr_url := github_url ++ "/pulls" }

/-- The derived `github_release` property of a seed entry. -/
def MockGitHubProjectModel.githubRelease (m : MockGitHubProjectModel) :
    Option GitHubRelease :=
  match m.tag, m.tag_date with
  | some t, some d => some { tag := t, date_created := d }
  | _, _ => none

/-- Document fields of a seed entry (`BaseSpherexDocumentModel`). -/
structure MockSpherexDocumentModel extends MockGitHubProjectModel where
  handle : String
  ssdc_author : String
deriving DecidableEq, Repr

/-- The `ssdc-ms` seed entry model (`SsdcMsModel`). -/
structure SsdcMsModel extends MockSpherexDocumentModel where
  project_author : String
  approval : Option String
  difficulty : String
  pipeline_level : Int
  diagram_index : Int
deriving DecidableEq, Repr

/-- Model of `SsdcMsModel.domain_model`. -/
def SsdcMsModel.domainModel (m : SsdcMsModel) : SpherexMsDocument :=
  { url := m.url
    series := "SSDC-MS"
    handle := m.handle
    title := m.title
    project_id := m.project_id
    organization_id := "spherex"
    github_url := m.github_url
    github_issues := m.githubIssues
    github_release := m.githubRelease
    latest_commit_datetime := m.commit_date
    ssdc_author_name := m.ssdc_author
    project_contact_name := m.project_author
    pipeline_level := m.pipeline_level
    diagram_index := m.diagram_index
    approval_str := m.approval
    difficulty := m.difficulty }

/-- The `ssdc-pm` seed entry model (`SsdcPmModel`). -/
structure SsdcPmModel extends MockSpherexDocumentModel where
  approval : Option String
deriving DecidableEq, Repr

/-- Model of `SsdcPmModel.domain_model`. -/
def SsdcPmModel.domainModel (m : SsdcPmModel) : SpherexPmDocument :=
  { url := m.url
    series := "SSDC-PM"
    handle := m.handle
    title := m.title
    project_id := m.project_id
    organization_id := "spherex"
    github_url := m.github_url
    github_issues := m.githubIssues
    github_release := m.githubRelease
    latest_commit_datetime := m.commit_date
    ssdc_author_name := m.ssdc_author
    approval_str := m.approval }

/-- The `ssdc-if` seed entry model (`SsdcIfModel`). -/
structure SsdcIfModel extends MockSpherexDocumentModel where
  approval : Option String
  interface_partner : String
deriving DecidableEq, Repr

/-- Model of `SsdcIfModel.domain_model`. -/
def SsdcIfModel.domainModel (m : SsdcIfModel) : SpherexIfDocument :=
  { url := m.url
    series := "SSDC-IF"
    handle := m.handle
    title := m.title
    project_id := m.project_id
    organization_id := "spherex"
    github_url := m.github_url
    github_issues := m.githubIssues
    github_release := m.githubRelease
    latest_commit_datetime := m.commit_date
    ssdc_author_name := m.ssdc_author
    approval_str := m.approval
    interface_partner_name := m.interface_partner }

/-- The `ssdc-dp` seed entry model (`SsdcDpModel`). -/
structure SsdcDpModel extends MockSpherexDocumentModel where
  approval : Option String
deriving DecidableEq, Repr

/-- Model of `SsdcDpModel.domain_model`.  Note the source constructs the
data-product document with `series="SSDC-IF"`. -/
def SsdcDpModel.domainModel (m : SsdcDpModel) : SpherexDpDocument :=
  { url := m.url
    series := "SSDC-IF"
    handle := m.handle
    title := m.title
    project_id := m.project_id
    organization_id := "spherex"
    github_url := m.github_url
    github_issues := m.githubIssues
    github_release := m.githubRelease
    latest_commit_datetime := m.commit_date
    ssdc_author_name := m.ssdc_author
    approval_str := m.approval }

/-- The `ssdc-tr` seed entry model (`SsdcTrModel`). -/
structure SsdcTrModel extends MockSpherexDocumentModel where
  approval : Option String
  va_doors_id : Option String
  req_doors_id : Option String
  ipac_jira_id : Option String
deriving DecidableEq, Repr

/-- Model of `SsdcTrModel.domain_model`. -/
def SsdcTrModel.domainModel (m : SsdcTrModel) : SpherexTrDocument :=
  { url := m.url
    series := "SSDC-TR"
    handle := m.handle
    title := m.title
    project_id := m.project_id
    organization_id := "spherex"
    github_url := m.github_url
    github_issues := m.githubIssues
    github_release := m.githubRelease
    latest_commit_datetime := m.commit_date
    ssdc_author_name := m.ssdc_author
    approval_str := m.approval
    va_doors_id := m.va_doors_id
    req_doors_id := m.req_doors_id
    ipac_jira_id := m.ipac_jira_id }

/-- The `ssdc-tn` seed entry model (`SsdcTnModel`). -/
structure SsdcTnModel extends MockSpherexDocumentModel where
deriving DecidableEq, Repr

/-- Model of `SsdcTnModel.domain_model`. -/
def SsdcTnModel.domainModel (m : SsdcTnModel) : SpherexTnDocument :=
  { url := m.url
    series := "SSDC-TN"
    handle := m.handle
    title := m.title
    project_id := m.project_id
    organization_id := "spherex"
    github_url := m.github_url
    github_issues := m.githubIssues
    github_release := m.githubRelease
    latest_commit_datetime := m.commit_date
    ssdc_author_name := m.ssdc_author }

/-- The `ssdc-op` seed entry model (`SsdcOpModel`). -/
structure SsdcOpModel extends MockSpherexDocumentModel where
deriving DecidableEq, Repr

/-- Model of `SsdcOpModel.domain_model`. -/
def SsdcOpModel.domainModel (m : SsdcOpModel) : SpherexOpDocument :=
  { url := m.url
    series := "SSDC-OP"
    handle := m.handle
    title := m.title
    project_id := m.project_id
    organization_id := "spherex"
    github_url := m.github_url
    github_issues := m.githubIssues
    github_release := m.githubRelease
    latest_commit_datetime := m.commit_date
    ssdc_author_name := m.ssdc_author }

/-! ### Derived notions used by the claims -/

/-- The entities stored under one key: values of all entries whose key is
`k` (an API-reachable store holds at most one). -/
def entriesFor {α : Type} (s : List (String × α)) (k : String) : List α :=
  (s.filter (fun e => e.1 = k)).map Prod.snd

/-- The seven category codes dispatched on by `_ingest_project`. -/
def categoryCodes : List String :=
  ["ssdc-ms", "ssdc-pm", "ssdc-if", "ssdc-dp", "ssdc-tr", "ssdc-tn", "ssdc-op"]

/-- Whether a log event references a given project slug.  Only the
`MetadataError` warning carries a slug; the client warning carries a
repository URL. -/
def mentionsSlug (slug : String) : LogEvent → Bool
  | .metadataWarning s _ => s = slug
  | .clientWarning _ => false

/-- Whether a dispatch outcome is a `MetadataError`. -/
def isErrorResult :
    Option (Except MetadataError (CatWrite × List LogEvent)) → Bool
  | some (Except.error _) => true
  | _ => false

/-- The warnings one project's ingestion contributes to the run log. -/
def projectEvents (env : Env) (org : LtdOrganizationModel)
    (p : LtdProjectModel) : List LogEvent :=
  match ingestResult env org p with
  | none => []
  | some (Except.error e) => [LogEvent.metadataWarning p.slug e.message]
  | some (Except.ok r) => r.2

/-- The stored value under key `k` in each of the seven category stores. -/
def repoLookups (r : ProjectRepository) (k : String) :
    Option SpherexMsDocument × Option SpherexPmDocument ×
    Option SpherexIfDocument × Option SpherexDpDocument ×
    Option SpherexTrDocument × Option SpherexTnDocument ×
    Option SpherexOpDocument :=
  (lookupKey r.ssdc_ms k, lookupKey r.ssdc_pm k, lookupKey r.ssdc_if k,
   lookupKey r.ssdc_dp k, lookupKey r.ssdc_tr k, lookupKey r.ssdc_tn k,
   lookupKey r.ssdc_op k)

/-- The last value a write list assigns to a key, if any. -/
def lastWrite {α : Type} (ps : List (String × α)) (k : String) : Option α :=
  lookupKey ps.reverse k

/-! ### Concrete sample data used by the witnesses -/

/-- A sample module-specification lander metadata object. -/
def sampleMsMeta : LanderMsMeta :=
  { canonical_url := "https://spherex-docs.ipac.caltech.edu/ssdc-ms-001/"
    document_handle_code := "SSDC-MS"
    identifier := "SSDC-MS-001"
    title := "Module One"
    repository_url := "https://github.com/SPHEREx/ssdc-ms-001"
    authors := [{ name := "A Person", role := "IPAC Lead" }]
    diagram_index := 1
    pipeline_level := Sum.inl 2
    approval := none
    difficulty := "Low" }

/-- The `MetadataError` one sample project raises. -/
def sampleError : MetadataError :=
  { reason := "Could not get metadata object"
    handle := "ssdc-ms-bad"
    excMessage := "404" }

/-- A sample upstream environment: no GitHub App factory configured, one
module-specification metadata object per slug, except that fetching the slug
`ssdc-ms-bad` fails with `sampleError`. -/
def sampleEnv : Env :=
  { org := { slug := "spherex", s3_bucket := none }
    projects := []
    githubFactoryConfigured := false
    installationClient := fun _ _ => Except.error ()
    fetchMs := fun slug =>
      if slug = "ssdc-ms-bad" then Except.error sampleError
      else Except.ok sampleMsMeta
    fetchPm := fun _ => Except.error sampleError
    fetchIf := fun _ => Except.error sampleError
    fetchDp := fun _ => Except.error sampleError
    fetchTr := fun _ => Except.error sampleError
    fetchTn := fun _ => Except.error sampleError
    fetchOp := fun _ => Except.error sampleError }

/-- The sample organization descriptor. -/
def sampleOrg : LtdOrganizationModel := { slug := "spherex", s3_bucket := none }

/-- A sample project whose ingestion succeeds. -/
def sampleProjectOk : LtdProjectModel :=
  { slug := "ssdc-ms-001", default_edition := { date_rebuilt := 42 } }

/-- A sample project whose metadata fetch raises `MetadataError`. -/
def sampleProjectBad : LtdProjectModel :=
  { slug := "ssdc-ms-bad", default_edition := { date_rebuilt := 7 } }

/-- A sample project whose slug matches no category code. -/
def sampleProjectOther : LtdProjectModel :=
  { slug := "sphx-001", default_edition := { date_rebuilt := 9 } }

/-- An empty starting run state. -/
def sampleState : RunState :=
  { repo :=
      { ssdc_ms := [], ssdc_pm := [], ssdc_if := [], ssdc_dp := []
        ssdc_tr := [], ssdc_tn := [], ssdc_op := [] }
    warnings := []
    fetched := [] }

/-- The document `sampleProjectOk` ingestion produces under `sampleEnv`
(no GitHub client is available, so the GitHub fields are the defaults). -/
def sampleMsDoc : SpherexMsDocument :=
  { url := "https://spherex-docs.ipac.caltech.edu/ssdc-ms-001/"
    title := "Module One"
    project_id := "ssdc-ms-001"
    organization_id := "spherex"
    github_url := "https://github.com/SPHEREx/ssdc-ms-001"
    github_issues :=
      { open_issue_count := 0
        open_pr_count := 0
        issue_url := "https://github.com/SPHEREx/ssdc-ms-001/issues"
        pr_url := "https://github.com/SPHEREx/ssdc-ms-001/pulls" }
    latest_commit_datetime := 42
    github_release := none
    series := "SSDC-MS"
    handle := "SSDC-MS-001"
    ssdc_author_name := "A Person"
    project_contact_name := ""
    diagram_index := 1
    pipeline_level := 2
    approval_str := none
    difficulty := "Low" }

/-- A configuration with no object-store key pair. -/
def sampleConfigNoKeys : PortalConfig :=
  { aws_access_key_id := none, aws_access_key_secret := none }

/-- A sample repository descriptor for the issue-count fetch. -/
def c1Repo : GitHubRepositoryModel :=
  { ownerLogin := "SPHEREx", name := "ssdc-ms-001", pushed_at := 0 }

/-- A one-page issues listing holding a single open issue (no
`pull_request` field). -/
def c1Items : List IssueItem := [{ has_pull_request := false }]

/-- The module-specification writes a run produces, in run order. -/
def msWrites (env : Env) (org : LtdOrganizationModel)
    (ps : List LtdProjectModel) : List (String × SpherexMsDocument) :=
  ps.filterMap (fun p =>
    match ingestResult env org p with
    | some (Except.ok (CatWrite.ms d, _)) => some (d.project_id, d)
    | _ => none)

/-- The project-management writes a run produces, in run order. -/
def pmWrites (env : Env) (org : LtdOrganizationModel)
    (ps : List LtdProjectModel) : List (String × SpherexPmDocument) :=
  ps.filterMap (fun p =>
    match ingestResult env org p with
    | some (Except.ok (CatWrite.pm d, _)) => some (d.project_id, d)
    | _ => none)

/-- The interface-document writes a run produces, in run order. -/
def ifcWrites (env : Env) (org : LtdOrganizationModel)
    (ps : List LtdProjectModel) : List (String × SpherexIfDocument) :=
  ps.filterMap (fun p =>
    match ingestResult env org p with
    | some (Except.ok (CatWrite.ifc d, _)) => some (d.project_id, d)
    | _ => none)

/-- The data-product writes a run produces, in run order. -/
def dpWrites (env : Env) (org : LtdOrganizationModel)
    (ps : List LtdProjectModel) : List (String × SpherexDpDocument) :=
  ps.filterMap (fun p =>
    match ingestResult env org p with
    | some (Except.ok (CatWrite.dp d, _)) => some (d.project_id, d)
    | _ => none)

/-- The test-report writes a run produces, in run order. -/
def trWrites (env : Env) (org : LtdOrganizationModel)
    (ps : List LtdProjectModel) : List (String × SpherexTrDocument) :=
  ps.filterMap (fun p =>
    match ingestResult env org p with
    | some (Except.ok (CatWrite.tr d, _)) => some (d.project_id, d)
    | _ => none)

/-- The technical-note writes a run produces, in run order. -/
def tnWrites (env : Env) (org : LtdOrganizationModel)
    (ps : List LtdProjectModel) : List (String × SpherexTnDocument) :=
  ps.filterMap (fun p =>
    match ingestResult env org p with
    | some (Except.ok (CatWrite.tn d, _)) => some (d.project_id, d)
    | _ => none)

/-- The operations-note writes a run produces, in run order. -/
def opWrites (env : Env) (org : LtdOrganizationModel)
    (ps : List LtdProjectModel) : List (String × SpherexOpDocument) :=
  ps.filterMap (fun p =>
    match ingestResult env org p with
    | some (Except.ok (CatWrite.op d, _)) => some (d.project_id, d)
    | _ => none)

/-! ### Store lemmas -/

section StoreLemmas

variable {α : Type}

@[simp]
theorem storeKeys_nil : storeKeys ([] : List (String × α)) = [] := rfl

@[simp]
theorem storeKeys_cons (e : String × α) (rest : List (String × α)) :
    storeKeys (e :: rest) = e.1 :: storeKeys rest := rfl

theorem storeKeys_append (s t : List (String × α)) :
    storeKeys (s ++ t) = storeKeys s ++ storeKeys t := by
  simp [storeKeys]

theorem storeKeys_storeSet (s : List (String × α)) (k : String) (v : α) :
    storeKeys (storeSet s k v) =
      if k ∈ storeKeys s then storeKeys s else storeKeys s ++ [k] := by
  by_cases hmem : k ∈ storeKeys s
  · rw [if_pos hmem]
    rw [storeSet, if_pos hmem]
    simp only [storeKeys, List.map_map]
    refine List.map_congr_left (fun e _ => ?_)
    show (if e.1 = k then (k, v) else e).1 = e.1
    by_cases hek : e.1 = k
    · rw [if_pos hek]; exact hek.symm
    · rw [if_neg hek]
  · rw [if_neg hmem, storeSet, if_neg hmem, storeKeys_append]
    rfl

theorem self_mem_storeKeys_storeSet (s : List (String × α)) (k : String)
    (v : α) : k ∈ storeKeys (storeSet s k v) := by
  rw [storeKeys_storeSet]
  by_cases h : k ∈ storeKeys s
  · rwa [if_pos h]
  · rw [if_neg h]
    exact List.mem_append_right _ (List.mem_singleton.mpr rfl)

theorem mem_storeKeys_storeSet_of_mem (s : List (String × α)) (k : String)
    (v : α) (j : String) (h : j ∈ storeKeys s) :
    j ∈ storeKeys (storeSet s k v) := by
  rw [storeKeys_storeSet]
  split
  · exact h
  · exact List.mem_append_left _ h

theorem nodup_storeKeys_storeSet (s : List (String × α)) (k : String) (v : α)
    (h : (storeKeys s).Nodup) : (storeKeys (storeSet s k v)).Nodup := by
  rw [storeKeys_storeSet]
  split
  case isTrue => exact h
  case isFalse hmem =>
    simp only [List.nodup_append, List.nodup_singleton, true_and]
    exact ⟨h, by simpa [List.disjoint_singleton] using hmem⟩

@[simp]
theorem lookupKey_nil (k : String) :
    lookupKey ([] : List (String × α)) k = none := rfl

@[simp]
theorem lookupKey_cons (e : String × α) (rest : List (String × α))
    (k : String) :
    lookupKey (e :: rest) k =
      if e.1 = k then some e.2 else lookupKey rest k := rfl

theorem lookupKey_eq_none_iff (s : List (String × α)) (k : String) :
    lookupKey s k = none ↔ k ∉ storeKeys s := by
  induction s with
  | nil => simp
  | cons e rest ih =>
    rw [lookupKey_cons]
    by_cases h : e.1 = k
    · simp [h]
    · have hne : k ≠ e.1 := fun hc => h hc.symm
      rw [if_neg h, ih, storeKeys_cons]
      simp [List.mem_cons, hne]

theorem lookupKey_append (s t : List (String × α)) (k : String) :
    lookupKey (s ++ t) k =
      match lookupKey s k with
      | some v => some v
      | none => lookupKey t k := by
  induction s with
  | nil => simp
  | cons e rest ih =>
    by_cases h : e.1 = k
    · simp [h]
    · simp [h, ih]

theorem lookupKey_map_replace (s : List (String × α)) (k : String) (v : α) :
    lookupKey (s.map (fun e => if e.1 = k then (k, v) else e)) k =
      if k ∈ storeKeys s then some v else none := by
  induction s with
  | nil => simp
  | cons e rest ih =>
    by_cases h : e.1 = k
    · simp [h]
    · have hne : ¬ (k = e.1) := fun hc => h hc.symm
      simp [h, ih, hne]

theorem lookupKey_storeSet_self (s : List (String × α)) (k : String)
    (v : α) : lookupKey (storeSet s k v) k = some v := by
  by_cases hmem : k ∈ storeKeys s
  · rw [storeSet, if_pos hmem, lookupKey_map_replace, if_pos hmem]
  · rw [storeSet, if_neg hmem, lookupKey_append]
    rw [(lookupKey_eq_none_iff s k).mpr hmem]
    simp

theorem lookupKey_storeSet_ne (s : List (String × α)) (k : String) (v : α)
    (j : String) (h : j ≠ k) :
    lookupKey (storeSet s k v) j = lookupKey s j := by
  by_cases hmem : k ∈ storeKeys s
  · rw [storeSet, if_pos hmem]
    clear hmem
    induction s with
    | nil => simp
    | cons e rest ih =>
      by_cases he : e.1 = k
      · have hne : ¬ (k = j) := fun hc => h hc.symm
        simp [he, hne, ih]
      · simp [he, ih]
  · rw [storeSet, if_neg hmem, lookupKey_append]
    cases hl : lookupKey s j with
    | some v => rfl
    | none =>
      have hne : ¬ (k = j) := fun hc => h hc.symm
      simp [hne]

@[simp]
theorem entriesFor_nil (k : String) :
    entriesFor ([] : List (String × α)) k = [] := rfl

theorem entriesFor_cons (e : String × α) (rest : List (String × α))
    (k : String) :
    entriesFor (e :: rest) k =
      if e.1 = k then e.2 :: entriesFor rest k else entriesFor rest k := by
  by_cases h : e.1 = k
  · simp [entriesFor, h]
  · simp [entriesFor, h]

theorem entriesFor_eq_nil_of_not_mem (s : List (String × α)) (k : String)
    (h : k ∉ storeKeys s) : entriesFor s k = [] := by
  induction s with
  | nil => rfl
  | cons e rest ih =>
    rw [storeKeys_cons] at h
    have h1 : ¬ (e.1 = k) := fun hc => h (hc ▸ List.mem_cons_self _ _)
    have h2 : k ∉ storeKeys rest := fun hc => h (List.mem_cons_of_mem _ hc)
    rw [entriesFor_cons, if_neg h1, ih h2]

theorem entriesFor_eq_toList_lookupKey (s : List (String × α)) (k : String)
    (h : (storeKeys s).Nodup) :
    entriesFor s k = (lookupKey s k).toList := by
  induction s with
  | nil => rfl
  | cons e rest ih =>
    rw [storeKeys_cons, List.nodup_cons] at h
    by_cases he : e.1 = k
    · rw [entriesFor_cons, if_pos he, lookupKey_cons, if_pos he]
      rw [entriesFor_eq_nil_of_not_mem rest k (he ▸ h.1)]
      rfl
    · rw [entriesFor_cons, if_neg he, lookupKey_cons, if_neg he, ih h.2]

end StoreLemmas

/-! ### The Python string order agrees with Lean's `String` order -/

theorem charListLe_iff_not_lt (l1 l2 : List Char) :
    charListLe l1 l2 = true ↔ ¬ List.lt l2 l1 := by
  induction l1 generalizing l2 with
  | nil => exact iff_of_true rfl (fun h => nomatch h)
  | cons a as ih =>
    cases l2 with
    | nil =>
      refine iff_of_false ?_ ?_
      · simp [charListLe]
      · intro hn; exact hn (List.lt.nil a as)
    | cons b bs =>
      by_cases hab : a < b
      · refine iff_of_true (by simp [charListLe, hab]) ?_
        intro hlt
        cases hlt with
        | head _ _ h => exact absurd h (lt_asymm hab)
        | tail h1 h2 h3 => exact h2 hab
      · by_cases hba : b < a
        · refine iff_of_false (by simp [charListLe, hab, hba]) ?_
          intro hn
          exact hn (List.lt.head _ _ hba)
        · have hl : charListLe (a :: as) (b :: bs) = charListLe as bs := by
            simp [charListLe, hab, hba]
          rw [hl, ih]
          constructor
          · intro hn hlt
            cases hlt with
            | head _ _ h => exact hba h
            | tail h1 h2 h3 => exact hn h3
          · intro hn hlt
            exact hn (List.lt.tail hba hab hlt)

theorem strLe_iff_le (a b : String) : strLe a b ↔ a ≤ b := by
  have h1 : strLe a b ↔ ¬ List.lt b.toList a.toList :=
    charListLe_iff_not_lt a.toList b.toList
  have h2 : List.lt b.toList a.toList ↔ b < a := by
    rw [String.lt_iff_toList_lt]
    exact List.lt_iff_lex_lt _ _
  rw [h1, h2, not_lt]

instance : IsTotal String strLe :=
  ⟨fun a b => by
    rcases le_total a b with h | h
    · exact Or.inl ((strLe_iff_le a b).mpr h)
    · exact Or.inr ((strLe_iff_le b a).mpr h)⟩

instance : IsTrans String strLe :=
  ⟨fun a b c hab hbc =>
    (strLe_iff_le a c).mpr
      (le_trans ((strLe_iff_le a b).mp hab) ((strLe_iff_le b c).mp hbc))⟩

instance : IsAntisymm String strLe :=
  ⟨fun a b hab hba =>
    le_antisymm ((strLe_iff_le a b).mp hab) ((strLe_iff_le b a).mp hba)⟩

/-! ### Lemmas about stores built by upserts -/

section UpsertLemmas

variable {α : Type}

theorem upsertAll_fresh (pid : α → String) (ds : List α)
    (s : List (String × α)) (hnd : (ds.map pid).Nodup)
    (hfresh : ∀ d ∈ ds, pid d ∉ storeKeys s) :
    upsertAll pid ds s = s ++ ds.map (fun d => (pid d, d)) := by
  induction ds generalizing s with
  | nil => simp [upsertAll]
  | cons d rest ih =>
    rw [List.map_cons, List.nodup_cons] at hnd
    have h1 : pid d ∉ storeKeys s := hfresh d (List.mem_cons_self _ _)
    have e1 : upsert pid s d = s ++ [(pid d, d)] := by
      rw [upsert, storeSet, if_neg h1]
    have h3 : ∀ d2 ∈ rest, pid d2 ∉ storeKeys (s ++ [(pid d, d)]) := by
      intro d2 hd2
      rw [storeKeys_append]
      intro hmem
      rcases List.mem_append.mp hmem with hx | hx
      · exact hfresh d2 (List.mem_cons_of_mem _ hd2) hx
      · have hx2 : pid d2 = pid d := by simpa using hx
        exact hnd.1 (hx2 ▸ List.mem_map_of_mem pid hd2)
    show upsertAll pid rest (upsert pid s d) = _
    rw [e1, ih (s ++ [(pid d, d)]) hnd.2 h3, List.append_assoc]
    rfl

theorem storeKeys_entryMap (pid : α → String) (ds : List α) :
    storeKeys (ds.map (fun d => (pid d, d))) = ds.map pid := by
  simp [storeKeys, List.map_map, Function.comp]

theorem lookupKey_entryMap_some (pid : α → String) (ds : List α)
    (k : String) (v : α)
    (h : lookupKey (ds.map (fun d => (pid d, d))) k = some v) :
    pid v = k ∧ v ∈ ds := by
  induction ds with
  | nil => simp at h
  | cons d rest ih =>
    rw [List.map_cons, lookupKey_cons] at h
    by_cases hd : pid d = k
    · rw [if_pos hd] at h
      cases h
      exact ⟨hd, List.mem_cons_self _ _⟩
    · rw [if_neg hd] at h
      rcases ih h with ⟨ha, hb⟩
      exact ⟨ha, List.mem_cons_of_mem _ hb⟩

theorem lookupKey_entryMap_mem (pid : α → String) (ds : List α) (d : α)
    (hnd : (ds.map pid).Nodup) (hd : d ∈ ds) :
    lookupKey (ds.map (fun x => (pid x, x))) (pid d) = some d := by
  induction ds with
  | nil => cases hd
  | cons d0 rest ih =>
    rw [List.map_cons, List.nodup_cons] at hnd
    rw [List.map_cons, lookupKey_cons]
    rcases List.mem_cons.mp hd with rfl | hmem
    · rw [if_pos rfl]
    · by_cases h0 : pid d0 = pid d
      · exact absurd (h0 ▸ List.mem_map_of_mem pid hmem) hnd.1
      · rw [if_neg h0]
        exact ih hnd.2 hmem

theorem filterMap_congr_mem {β γ : Type} (l : List β) (f g : β → Option γ)
    (h : ∀ x ∈ l, f x = g x) : l.filterMap f = l.filterMap g := by
  induction l with
  | nil => rfl
  | cons x xs ih =>
    rw [List.filterMap_cons, List.filterMap_cons,
      h x (List.mem_cons_self _ _),
      ih (fun y hy => h y (List.mem_cons_of_mem _ hy))]

theorem filterMap_lookupKey_storeKeys (s : List (String × α))
    (h : (storeKeys s).Nodup) :
    (storeKeys s).filterMap (fun k => lookupKey s k) = s.map Prod.snd := by
  induction s with
  | nil => rfl
  | cons e rest ih =>
    rw [storeKeys_cons, List.nodup_cons] at h
    rw [storeKeys_cons, List.filterMap_cons, lookupKey_cons, if_pos rfl]
    have hcong :
        ∀ k ∈ storeKeys rest,
          (fun k => lookupKey (e :: rest) k) k =
            (fun k => lookupKey rest k) k := by
      intro k hk
      show lookupKey (e :: rest) k = lookupKey rest k
      rw [lookupKey_cons, if_neg (fun hc : e.1 = k => h.1 (hc ▸ hk))]
    rw [filterMap_congr_mem _ _ _ hcong, ih h.2, List.map_cons]

theorem sorted_filterMap_of_keys (ks : List String) (g : String → Option α)
    (pid : α → String) (hs : List.Sorted strLe ks)
    (hg : ∀ k v, g k = some v → pid v = k) :
    List.Sorted (fun d1 d2 => pid d1 ≤ pid d2) (ks.filterMap g) := by
  induction ks with
  | nil => simp
  | cons k rest ih =>
    rw [List.sorted_cons] at hs
    rw [List.filterMap_cons]
    cases hgk : g k with
    | none => exact ih hs.2
    | some v =>
      rw [List.sorted_cons]
      refine ⟨?_, ih hs.2⟩
      intro b hb
      rcases List.mem_filterMap.mp hb with ⟨k2, hk2, hg2⟩
      rw [hg k v hgk, hg k2 b hg2]
      exact (strLe_iff_le k k2).mp (hs.1 k2 hk2)

end UpsertLemmas

/-! ### Claim C3 -/

/-- C3: for every category and all documents `d1, d2` sharing the same
`project_id`, executing `upsert(d1)` then `upsert(d2)` on that category's
store leaves exactly one entity under that `project_id`, equal to `d2`
(full replacement, no merge).  The store is any reachable store, i.e. one
with pairwise-distinct keys. -/
theorem c3_upsert_replaces {α : Type} (pid : α → String)
    (s : List (String × α)) (d1 d2 : α)
    (_hk : pid d1 = pid d2) (hnd : (storeKeys s).Nodup) :
    entriesFor (upsert pid (upsert pid s d1) d2) (pid d2) = [d2] := by
  have hnd1 : (storeKeys (upsert pid s d1)).Nodup :=
    nodup_storeKeys_storeSet _ _ _ hnd
  have hnd2 : (storeKeys (upsert pid (upsert pid s d1) d2)).Nodup :=
    nodup_storeKeys_storeSet _ _ _ hnd1
  rw [entriesFor_eq_toList_lookupKey _ _ hnd2, upsert, lookupKey_storeSet_self]
  rfl

/-- Witness for C3: two documents with the same key `"ssdc-ms-001"` upserted
into a store holding an unrelated entry. -/
theorem c3_upsert_replaces_witness :
    (fun _ : Nat => "ssdc-ms-001") 1 = (fun _ : Nat => "ssdc-ms-001") 2 ∧
    (storeKeys [("ssdc-pm-001", (7 : Nat))]).Nodup ∧
    entriesFor
      (upsert (fun _ : Nat => "ssdc-ms-001")
        (upsert (fun _ : Nat => "ssdc-ms-001") [("ssdc-pm-001", 7)] 1) 2)
      ((fun _ : Nat => "ssdc-ms-001") 2) = [2] :=
  ⟨rfl, by decide,
    c3_upsert_replaces (fun _ => "ssdc-ms-001") [("ssdc-pm-001", 7)] 1 2 rfl
      (by decide)⟩

/-! ### Claim C4 -/

/-- C4: for every category and every finite set of documents (distinct
`project_id`s) upserted in any order into an empty store, `get_all` returns
exactly those documents (a permutation of the set), sorted ascending by
`project_id`, and the result is the same for any upsert order
(determinism).  The model of `get_all` is a pure function, so it cannot
modify the store. -/
theorem c4_getAll_sorted {α : Type} (pid : α → String)
    (docs order1 order2 : List α)
    (h1 : order1.Perm docs) (h2 : order2.Perm docs)
    (hnd : (docs.map pid).Nodup) :
    (getAll (upsertAll pid order1 [])).Perm docs ∧
    List.Sorted (fun d1 d2 => pid d1 ≤ pid d2)
      (getAll (upsertAll pid order1 [])) ∧
    getAll (upsertAll pid order1 []) = getAll (upsertAll pid order2 []) := by
  have hnd1 : (order1.map pid).Nodup := ((h1.map pid).nodup_iff).mpr hnd
  have hnd2 : (order2.map pid).Nodup := ((h2.map pid).nodup_iff).mpr hnd
  have ht1 : upsertAll pid order1 [] = order1.map (fun d => (pid d, d)) := by
    rw [upsertAll_fresh pid order1 [] hnd1 (by intro d _; simp)]
    rfl
  have ht2 : upsertAll pid order2 [] = order2.map (fun d => (pid d, d)) := by
    rw [upsertAll_fresh pid order2 [] hnd2 (by intro d _; simp)]
    rfl
  have hk1 : storeKeys (upsertAll pid order1 []) = order1.map pid := by
    rw [ht1, storeKeys_entryMap]
  have hk2 : storeKeys (upsertAll pid order2 []) = order2.map pid := by
    rw [ht2, storeKeys_entryMap]
  have hknd1 : (storeKeys (upsertAll pid order1 [])).Nodup := by
    rw [hk1]; exact hnd1
  refine ⟨?_, ?_, ?_⟩
  · -- permutation: getAll returns exactly the upserted documents
    have hvals :
        (storeKeys (upsertAll pid order1 [])).filterMap
            (fun k => lookupKey (upsertAll pid order1 []) k) =
          (upsertAll pid order1 []).map Prod.snd :=
      filterMap_lookupKey_storeKeys _ hknd1
    have hsnd : (upsertAll pid order1 []).map Prod.snd = order1 := by
      rw [ht1, List.map_map]
      have hpt : ∀ d ∈ order1, (Prod.snd ∘ fun d => (pid d, d)) d = id d :=
        fun d _ => rfl
      rw [List.map_congr_left hpt, List.map_id]
    have hstep :
        (getAll (upsertAll pid order1 [])).Perm
          ((upsertAll pid order1 []).map Prod.snd) := by
      rw [← hvals]
      exact List.Perm.filterMap _ (List.perm_insertionSort strLe _)
    rw [hsnd] at hstep
    exact hstep.trans h1
  · -- sortedness by project id
    apply sorted_filterMap_of_keys _ _ pid
      (List.sorted_insertionSort strLe _)
    intro k v hv
    rw [ht1] at hv
    exact (lookupKey_entryMap_some pid order1 k v hv).1
  · -- determinism: independent of the upsert order
    have hkperm :
        (storeKeys (upsertAll pid order1 [])).Perm
          (storeKeys (upsertAll pid order2 [])) := by
      rw [hk1, hk2]
      exact (h1.map pid).trans (h2.map pid).symm
    have hkeyeq :
        sortedKeys (storeKeys (upsertAll pid order1 [])) =
          sortedKeys (storeKeys (upsertAll pid order2 [])) := by
      refine List.eq_of_perm_of_sorted ?_
        (List.sorted_insertionSort strLe _) (List.sorted_insertionSort strLe _)
      exact (List.perm_insertionSort strLe _).trans
        (hkperm.trans (List.perm_insertionSort strLe _).symm)
    have hlook :
        ∀ k ∈ sortedKeys (storeKeys (upsertAll pid order1 [])),
          lookupKey (upsertAll pid order1 []) k =
            lookupKey (upsertAll pid order2 []) k := by
      intro k _
      cases hv : lookupKey (upsertAll pid order1 []) k with
      | some v =>
        rw [ht1] at hv
        rcases lookupKey_entryMap_some pid order1 k v hv with ⟨hpid, hmem⟩
        have hmem2 : v ∈ order2 := h2.mem_iff.mpr (h1.mem_iff.mp hmem)
        rw [ht2, ← hpid]
        exact (lookupKey_entryMap_mem pid order2 v hnd2 hmem2).symm
      | none =>
        have hnone : k ∉ storeKeys (upsertAll pid order1 []) :=
          (lookupKey_eq_none_iff _ _).mp hv
        rw [hk1] at hnone
        have hnone2 : k ∉ order2.map pid := by
          intro hc
          exact hnone (((h1.map pid).trans (h2.map pid).symm).mem_iff.mpr hc)
        rw [(lookupKey_eq_none_iff _ _).mpr (hk2 ▸ hnone2)]
    rw [getAll, getAll, hkeyeq]
    exact filterMap_congr_mem _ _ _ (fun k hk =>
      hlook k (hkeyeq ▸ hk))

/-- Witness for C4: the two-document set `{"b", "a"}` upserted in both
orders. -/
theorem c4_getAll_sorted_witness :
    (["b", "a"] : List String).Perm ["b", "a"] ∧
    (["a", "b"] : List String).Perm ["b", "a"] ∧
    ((["b", "a"] : List String).map id).Nodup ∧
    ((getAll (upsertAll id ["b", "a"] [])).Perm ["b", "a"] ∧
      List.Sorted (fun d1 d2 : String => id d1 ≤ id d2)
        (getAll (upsertAll id ["b", "a"] [])) ∧
      getAll (upsertAll id ["b", "a"] []) =
        getAll (upsertAll id ["a", "b"] [])) :=
  ⟨by decide, by decide, by decide,
    c4_getAll_sorted id ["b", "a"] ["b", "a"] ["a", "b"]
      (by decide) (by decide) (by decide)⟩

/-! ### Idempotence of applying a write list -/

section ApplyAllLemmas

variable {α : Type}

theorem lastWrite_def (ps : List (String × α)) (k : String) :
    lastWrite ps k = lookupKey ps.reverse k := rfl

@[simp]
theorem lastWrite_nil (k : String) :
    lastWrite ([] : List (String × α)) k = none := rfl

theorem lastWrite_cons (p : String × α) (ps : List (String × α))
    (k : String) :
    lastWrite (p :: ps) k =
      match lastWrite ps k with
      | some v => some v
      | none => if p.1 = k then some p.2 else none := by
  rw [lastWrite_def, lastWrite_def, List.reverse_cons, lookupKey_append]
  cases lookupKey ps.reverse k with
  | some v => rfl
  | none => simp

@[simp]
theorem applyAll_nil (s : List (String × α)) : applyAll [] s = s := rfl

theorem applyAll_cons (p : String × α) (ps : List (String × α))
    (s : List (String × α)) :
    applyAll (p :: ps) s = applyAll ps (storeSet s p.1 p.2) := rfl

theorem eq_of_mem_storeSet_key (s : List (String × α)) (k : String) (v : α)
    (e : String × α) (he : e ∈ storeSet s k v) (hk : e.1 = k) :
    e = (k, v) := by
  rw [storeSet] at he
  split at he
  case isTrue hmem =>
    rcases List.mem_map.mp he with ⟨e0, _, heq⟩
    by_cases h0 : e0.1 = k
    · rw [if_pos h0] at heq
      exact heq.symm
    · rw [if_neg h0] at heq
      rw [← heq] at hk
      exact absurd hk h0
  case isFalse hmem =>
    rcases List.mem_append.mp he with h1 | h1
    · exact absurd (show e.1 ∈ storeKeys s from List.mem_map_of_mem Prod.fst h1)
        (hk ▸ hmem)
    · simpa using h1

theorem mem_of_mem_storeSet_ne (s : List (String × α)) (k : String) (v : α)
    (e : String × α) (he : e ∈ storeSet s k v) (hk : e.1 ≠ k) : e ∈ s := by
  rw [storeSet] at he
  split at he
  case isTrue =>
    rcases List.mem_map.mp he with ⟨e0, he0, heq⟩
    by_cases h0 : e0.1 = k
    · rw [if_pos h0] at heq
      rw [← heq] at hk
      exact absurd rfl hk
    · rw [if_neg h0] at heq
      rw [← heq]
      exact he0
  case isFalse =>
    rcases List.mem_append.mp he with h1 | h1
    · exact h1
    · have he2 : e = (k, v) := by simpa using h1
      rw [he2] at hk
      exact absurd rfl hk

theorem mem_of_applyAll_of_lastWrite_none (ps : List (String × α))
    (s : List (String × α)) (e : String × α)
    (he : e ∈ applyAll ps s) (hn : lastWrite ps e.1 = none) : e ∈ s := by
  induction ps generalizing s with
  | nil => exact he
  | cons p rest ih =>
    rw [applyAll_cons] at he
    rw [lastWrite_cons] at hn
    cases hlw : lastWrite rest e.1 with
    | some v =>
      rw [hlw] at hn
      exact absurd hn (by simp)
    | none =>
      rw [hlw] at hn
      have hne : p.1 ≠ e.1 := by
        intro hc
        rw [if_pos hc] at hn
        exact Option.noConfusion hn
      exact mem_of_mem_storeSet_ne _ _ _ _ (ih _ he hlw)
        (fun hc => hne hc.symm)

theorem applyAll_entry_eq_lastWrite (ps : List (String × α))
    (s : List (String × α)) (e : String × α) (v : α)
    (he : e ∈ applyAll ps s) (hl : lastWrite ps e.1 = some v) : e.2 = v := by
  induction ps generalizing s with
  | nil => exact absurd hl (by simp)
  | cons p rest ih =>
    rw [applyAll_cons] at he
    rw [lastWrite_cons] at hl
    cases hlw : lastWrite rest e.1 with
    | some w =>
      rw [hlw] at hl
      cases hl
      exact ih _ he hlw
    | none =>
      rw [hlw] at hl
      by_cases hc : p.1 = e.1
      · rw [if_pos hc] at hl
        cases hl
        have hmem : e ∈ storeSet s p.1 p.2 :=
          mem_of_applyAll_of_lastWrite_none rest _ e he hlw
        have he2 : e = (p.1, p.2) :=
          eq_of_mem_storeSet_key _ _ _ e hmem hc.symm
        rw [he2]
      · rw [if_neg hc] at hl
        exact Option.noConfusion hl

theorem mem_storeKeys_applyAll_of_mem (ps : List (String × α))
    (s : List (String × α)) (k : String) (h : k ∈ storeKeys s) :
    k ∈ storeKeys (applyAll ps s) := by
  induction ps generalizing s with
  | nil => exact h
  | cons p rest ih =>
    rw [applyAll_cons]
    exact ih _ (mem_storeKeys_storeSet_of_mem _ _ _ _ h)

theorem keys_covered_applyAll (ps : List (String × α))
    (s : List (String × α)) :
    ∀ p ∈ ps, p.1 ∈ storeKeys (applyAll ps s) := by
  induction ps generalizing s with
  | nil => intro p hp; cases hp
  | cons q rest ih =>
    intro p hp
    rw [applyAll_cons]
    rcases List.mem_cons.mp hp with rfl | hmem
    · exact mem_storeKeys_applyAll_of_mem _ _ _
        (self_mem_storeKeys_storeSet _ _ _)
    · exact ih _ p hmem

theorem applyAll_of_keys_mem (ps : List (String × α))
    (t : List (String × α)) (h : ∀ p ∈ ps, p.1 ∈ storeKeys t) :
    applyAll ps t = t.map (fun e =>
      match lastWrite ps e.1 with
      | some v => (e.1, v)
      | none => e) := by
  induction ps generalizing t with
  | nil => simp
  | cons p rest ih =>
    rw [applyAll_cons]
    have hp : p.1 ∈ storeKeys t := h p (List.mem_cons_self _ _)
    have hset : storeSet t p.1 p.2 =
        t.map (fun e => if e.1 = p.1 then (p.1, p.2) else e) := by
      rw [storeSet, if_pos hp]
    have hkeys :
        storeKeys (t.map (fun e => if e.1 = p.1 then (p.1, p.2) else e)) =
          storeKeys t := by
      simp only [storeKeys, List.map_map]
      refine List.map_congr_left (fun e _ => ?_)
      show (if e.1 = p.1 then (p.1, p.2) else e).1 = e.1
      by_cases hc : e.1 = p.1
      · rw [if_pos hc]
        exact hc.symm
      · rw [if_neg hc]
    have hcov :
        ∀ q ∈ rest,
          q.1 ∈ storeKeys
            (t.map (fun e => if e.1 = p.1 then (p.1, p.2) else e)) := by
      intro q hq
      rw [hkeys]
      exact h q (List.mem_cons_of_mem _ hq)
    rw [hset, ih _ hcov, List.map_map]
    refine List.map_congr_left (fun e _ => ?_)
    simp only [Function.comp_apply]
    rw [lastWrite_cons]
    by_cases hc : e.1 = p.1
    · rw [if_pos hc, hc]
      cases hlw : lastWrite rest p.1 with
      | some v => simp [hlw]
      | none => simp [hlw]
    · rw [if_neg hc]
      have hc2 : ¬ (p.1 = e.1) := fun h2 => hc h2.symm
      cases hlw : lastWrite rest e.1 with
      | some v => simp [hlw]
      | none => simp [hlw, hc2]

theorem applyAll_applyAll (ps : List (String × α)) (s : List (String × α)) :
    applyAll ps (applyAll ps s) = applyAll ps s := by
  rw [applyAll_of_keys_mem ps (applyAll ps s) (keys_covered_applyAll ps s)]
  have hfix : ∀ e ∈ applyAll ps s,
      (match lastWrite ps e.1 with
       | some v => (e.1, v)
       | none => e) = e := by
    intro e he
    cases hlw : lastWrite ps e.1 with
    | some v =>
      have h2 : e.2 = v := applyAll_entry_eq_lastWrite ps s e v he hlw
      show (e.1, v) = e
      rw [← h2]
    | none => rfl
  rw [List.map_congr_left hfix, List.map_id']

end ApplyAllLemmas

/-! ### Decomposing a run into per-store write lists -/

theorem ingestProject_of_none (env : Env) (org : LtdOrganizationModel)
    (s : RunState) (p : LtdProjectModel)
    (h : ingestResult env org p = none) :
    ingestProject env org s p = s := by
  simp [ingestProject, h]

theorem ingestProject_of_error (env : Env) (org : LtdOrganizationModel)
    (s : RunState) (p : LtdProjectModel) (e : MetadataError)
    (h : ingestResult env org p = some (Except.error e)) :
    ingestProject env org s p =
      { s with
        warnings :=
          s.warnings ++ [LogEvent.metadataWarning p.slug e.message]
        fetched := s.fetched ++ [p.slug] } := by
  simp [ingestProject, h]

theorem ingestProject_of_ok (env : Env) (org : LtdOrganizationModel)
    (s : RunState) (p : LtdProjectModel) (r : CatWrite × List LogEvent)
    (h : ingestResult env org p = some (Except.ok r)) :
    ingestProject env org s p =
      { s with
        repo := applyWrite s.repo r.1
        warnings := s.warnings ++ r.2
        fetched := s.fetched ++ [p.slug] } := by
  simp [ingestProject, h]

theorem runProjects_ms (env : Env) (org : LtdOrganizationModel)
    (ps : List LtdProjectModel) :
    ∀ s : RunState,
      (ps.foldl (ingestProject env org) s).repo.ssdc_ms =
        applyAll (msWrites env org ps) s.repo.ssdc_ms := by
  induction ps with
  | nil => intro s; rfl
  | cons p rest ih =>
    intro s
    rw [List.foldl_cons, ih]
    cases h : ingestResult env org p with
    | none =>
      rw [ingestProject_of_none env org s p h]
      simp [msWrites, List.filterMap_cons, h]
    | some r =>
      cases r with
      | error e =>
        rw [ingestProject_of_error env org s p e h]
        simp [msWrites, List.filterMap_cons, h]
      | ok r =>
        rw [ingestProject_of_ok env org s p r h]
        rcases r with ⟨w, log⟩
        cases w <;>
          simp [msWrites, List.filterMap_cons, h, applyWrite, applyAll_cons]

theorem runProjects_pm (env : Env) (org : LtdOrganizationModel)
    (ps : List LtdProjectModel) :
    ∀ s : RunState,
      (ps.foldl (ingestProject env org) s).repo.ssdc_pm =
        applyAll (pmWrites env org ps) s.repo.ssdc_pm := by
  induction ps with
  | nil => intro s; rfl
  | cons p rest ih =>
    intro s
    rw [List.foldl_cons, ih]
    cases h : ingestResult env org p with
    | none =>
      rw [ingestProject_of_none env org s p h]
      simp [pmWrites, List.filterMap_cons, h]
    | some r =>
      cases r with
      | error e =>
        rw [ingestProject_of_error env org s p e h]
        simp [pmWrites, List.filterMap_cons, h]
      | ok r =>
        rw [ingestProject_of_ok env org s p r h]
        rcases r with ⟨w, log⟩
        cases w <;>
          simp [pmWrites, List.filterMap_cons, h, applyWrite, applyAll_cons]

theorem runProjects_ifc (env : Env) (org : LtdOrganizationModel)
    (ps : List LtdProjectModel) :
    ∀ s : RunState,
      (ps.foldl (ingestProject env org) s).repo.ssdc_if =
        applyAll (ifcWrites env org ps) s.repo.ssdc_if := by
  induction ps with
  | nil => intro s; rfl
  | cons p rest ih =>
    intro s
    rw [List.foldl_cons, ih]
    cases h : ingestResult env org p with
    | none =>
      rw [ingestProject_of_none env org s p h]
      simp [ifcWrites, List.filterMap_cons, h]
    | some r =>
      cases r with
      | error e =>
        rw [ingestProject_of_error env org s p e h]
        simp [ifcWrites, List.filterMap_cons, h]
      | ok r =>
        rw [ingestProject_of_ok env org s p r h]
        rcases r with ⟨w, log⟩
        cases w <;>
          simp [ifcWrites, List.filterMap_cons, h, applyWrite, applyAll_cons]

theorem runProjects_dp (env : Env) (org : LtdOrganizationModel)
    (ps : List LtdProjectModel) :
    ∀ s : RunState,
      (ps.foldl (ingestProject env org) s).repo.ssdc_dp =
        applyAll (dpWrites env org ps) s.repo.ssdc_dp := by
  induction ps with
  | nil => intro s; rfl
  | cons p rest ih =>
    intro s
    rw [List.foldl_cons, ih]
    cases h : ingestResult env org p with
    | none =>
      rw [ingestProject_of_none env org s p h]
      simp [dpWrites, List.filterMap_cons, h]
    | some r =>
      cases r with
      | error e =>
        rw [ingestProject_of_error env org s p e h]
        simp [dpWrites, List.filterMap_cons, h]
      | ok r =>
        rw [ingestProject_of_ok env org s p r h]
        rcases r with ⟨w, log⟩
        cases w <;>
          simp [dpWrites, List.filterMap_cons, h, applyWrite, applyAll_cons]

theorem runProjects_tr (env : Env) (org : LtdOrganizationModel)
    (ps : List LtdProjectModel) :
    ∀ s : RunState,
      (ps.foldl (ingestProject env org) s).repo.ssdc_tr =
        applyAll (trWrites env org ps) s.repo.ssdc_tr := by
  induction ps with
  | nil => intro s; rfl
  | cons p rest ih =>
    intro s
    rw [List.foldl_cons, ih]
    cases h : ingestResult env org p with
    | none =>
      rw [ingestProject_of_none env org s p h]
      simp [trWrites, List.filterMap_cons, h]
    | some r =>
      cases r with
      | error e =>
        rw [ingestProject_of_error env org s p e h]
        simp [trWrites, List.filterMap_cons, h]
      | ok r =>
        rw [ingestProject_of_ok env org s p r h]
        rcases r with ⟨w, log⟩
        cases w <;>
          simp [trWrites, List.filterMap_cons, h, applyWrite, applyAll_cons]

theorem runProjects_tn (env : Env) (org : LtdOrganizationModel)
    (ps : List LtdProjectModel) :
    ∀ s : RunState,
      (ps.foldl (ingestProject env org) s).repo.ssdc_tn =
        applyAll (tnWrites env org ps) s.repo.ssdc_tn := by
  induction ps with
  | nil => intro s; rfl
  | cons p rest ih =>
    intro s
    rw [List.foldl_cons, ih]
    cases h : ingestResult env org p with
    | none =>
      rw [ingestProject_of_none env org s p h]
      simp [tnWrites, List.filterMap_cons, h]
    | some r =>
      cases r with
      | error e =>
        rw [ingestProject_of_error env org s p e h]
        simp [tnWrites, List.filterMap_cons, h]
      | ok r =>
        rw [ingestProject_of_ok env org s p r h]
        rcases r with ⟨w, log⟩
        cases w <;>
          simp [tnWrites, List.filterMap_cons, h, applyWrite, applyAll_cons]

theorem runProjects_op (env : Env) (org : LtdOrganizationModel)
    (ps : List LtdProjectModel) :
    ∀ s : RunState,
      (ps.foldl (ingestProject env org) s).repo.ssdc_op =
        applyAll (opWrites env org ps) s.repo.ssdc_op := by
  induction ps with
  | nil => intro s; rfl
  | cons p rest ih =>
    intro s
    rw [List.foldl_cons, ih]
    cases h : ingestResult env org p with
    | none =>
      rw [ingestProject_of_none env org s p h]
      simp [opWrites, List.filterMap_cons, h]
    | some r =>
      cases r with
      | error e =>
        rw [ingestProject_of_error env org s p e h]
        simp [opWrites, List.filterMap_cons, h]
      | ok r =>
        rw [ingestProject_of_ok env org s p r h]
        rcases r with ⟨w, log⟩
        cases w <;>
          simp [opWrites, List.filterMap_cons, h, applyWrite, applyAll_cons]

/-! ### Claim C5 -/

/-- C5: for every fixed upstream dataset (organization descriptor, project
list, per-project metadata, source-host responses — all held in `env`) and
configuration, running the full-refresh pass `bootstrap_from_api` twice in
succession yields Category Store contents after the second run identical to
those after the first run. -/
theorem c5_bootstrap_idempotent (cfg : PortalConfig) (env : Env)
    (s : RunState) :
    (bootstrapFromApi cfg env (bootstrapFromApi cfg env s).2).2.repo =
      (bootstrapFromApi cfg env s).2.repo := by
  cases hid : cfg.aws_access_key_id with
  | none => simp [bootstrapFromApi, hid]
  | some kid =>
    cases hsec : cfg.aws_access_key_secret with
    | none => simp [bootstrapFromApi, hid, hsec]
    | some sec =>
      simp only [bootstrapFromApi, hid, hsec]
      ext : 1
      all_goals
        simp only [runProjects_ms, runProjects_pm, runProjects_ifc,
          runProjects_dp, runProjects_tr, runProjects_tn, runProjects_op,
          applyAll_applyAll]

/-! ### Failure isolation machinery -/

theorem ingestProject_repo_congr (env : Env) (org : LtdOrganizationModel)
    (p : LtdProjectModel) (s t : RunState) (h : s.repo = t.repo) :
    (ingestProject env org s p).repo = (ingestProject env org t p).repo := by
  cases hr : ingestResult env org p with
  | none =>
    rw [ingestProject_of_none env org s p hr,
      ingestProject_of_none env org t p hr]
    exact h
  | some r =>
    cases r with
    | error e =>
      rw [ingestProject_of_error env org s p e hr,
        ingestProject_of_error env org t p e hr]
      exact h
    | ok r =>
      rw [ingestProject_of_ok env org s p r hr,
        ingestProject_of_ok env org t p r hr]
      show applyWrite s.repo r.1 = applyWrite t.repo r.1
      rw [h]

theorem runProjects_repo_congr (env : Env) (org : LtdOrganizationModel)
    (ps : List LtdProjectModel) :
    ∀ s t : RunState, s.repo = t.repo →
      (ps.foldl (ingestProject env org) s).repo =
        (ps.foldl (ingestProject env org) t).repo := by
  induction ps with
  | nil => intro s t h; exact h
  | cons p rest ih =>
    intro s t h
    rw [List.foldl_cons, List.foldl_cons]
    exact ih _ _ (ingestProject_repo_congr env org p s t h)

theorem runProjects_warnings (env : Env) (org : LtdOrganizationModel)
    (ps : List LtdProjectModel) :
    ∀ s : RunState,
      (ps.foldl (ingestProject env org) s).warnings =
        s.warnings ++ (ps.map (projectEvents env org)).flatten := by
  induction ps with
  | nil => intro s; simp
  | cons p rest ih =>
    intro s
    rw [List.foldl_cons, ih]
    cases h : ingestResult env org p with
    | none =>
      rw [ingestProject_of_none env org s p h]
      simp [projectEvents, h]
    | some r =>
      cases r with
      | error e =>
        rw [ingestProject_of_error env org s p e h]
        simp [projectEvents, h, List.append_assoc]
      | ok r =>
        rw [ingestProject_of_ok env org s p r h]
        simp [projectEvents, h, List.append_assoc]

theorem createClient_log (env : Env) (u : Option String) :
    (createGithubRepoClient env u).2 = [] ∨
      ∃ url, (createGithubRepoClient env u).2 =
        [LogEvent.clientWarning url] := by
  cases u with
  | none => exact Or.inl rfl
  | some url =>
    simp only [createGithubRepoClient]
    split
    · exact Or.inl rfl
    · split
      · exact Or.inl rfl
      · split
        · exact Or.inl rfl
        · exact Or.inr ⟨url, rfl⟩

theorem getCommon_log (env : Env) (u : String) (dflt : Int) :
    (getCommonGithubMetadata env u dflt).2 =
      (createGithubRepoClient env (some u)).2 := by
  simp only [getCommonGithubMetadata]
  cases h : (createGithubRepoClient env (some u)).1 <;> rfl

theorem except_map_ok_decomp {β : Type}
    (X : Except MetadataError (β × List LogEvent)) (g : β → CatWrite)
    (r : CatWrite × List LogEvent)
    (h : X.map (fun rr => (g rr.1, rr.2)) = Except.ok r) :
    ∃ d, X = Except.ok d ∧ r = (g d.1, d.2) := by
  cases X with
  | error e2 => simp [Except.map] at h
  | ok d =>
    simp only [Except.map] at h
    cases h
    exact ⟨d, rfl, rfl⟩

theorem join_filter_nil (L : List (List LogEvent)) (q : LogEvent → Bool)
    (h : ∀ l ∈ L, l.filter q = []) : L.flatten.filter q = [] := by
  induction L with
  | nil => rfl
  | cons x xs ih =>
    rw [List.flatten_cons, List.filter_append, h x (List.mem_cons_self _ _),
      ih (fun l hl => h l (List.mem_cons_of_mem _ hl))]
    rfl

theorem ingestSsdcMs_ok_parts (env : Env) (p : LtdProjectModel)
    (org : LtdOrganizationModel) (d : SpherexMsDocument × List LogEvent)
    (h : ingestSsdcMs env p org = Except.ok d) :
    d.1.project_id = p.slug ∧
      ∃ u, d.2 = (createGithubRepoClient env (some u)).2 := by
  cases hf : env.fetchMs p.slug with
  | error e2 => simp [ingestSsdcMs, hf] at h
  | ok m =>
    simp only [ingestSsdcMs, hf] at h
    cases h
    exact ⟨rfl, ⟨m.repository_url, getCommon_log env m.repository_url _⟩⟩

theorem ingestSsdcPm_ok_parts (env : Env) (p : LtdProjectModel)
    (org : LtdOrganizationModel) (d : SpherexPmDocument × List LogEvent)
    (h : ingestSsdcPm env p org = Except.ok d) :
    d.1.project_id = p.slug ∧
      ∃ u, d.2 = (createGithubRepoClient env (some u)).2 := by
  cases hf : env.fetchPm p.slug with
  | error e2 => simp [ingestSsdcPm, hf] at h
  | ok m =>
    simp only [ingestSsdcPm, hf] at h
    cases h
    exact ⟨rfl, ⟨m.repository_url, getCommon_log env m.repository_url _⟩⟩

theorem ingestSsdcIf_ok_parts (env : Env) (p : LtdProjectModel)
    (org : LtdOrganizationModel) (d : SpherexIfDocument × List LogEvent)
    (h : ingestSsdcIf env p org = Except.ok d) :
    d.1.project_id = p.slug ∧
      ∃ u, d.2 = (createGithubRepoClient env (some u)).2 := by
  cases hf : env.fetchIf p.slug with
  | error e2 => simp [ingestSsdcIf, hf] at h
  | ok m =>
    simp only [ingestSsdcIf, hf] at h
    cases h
    exact ⟨rfl, ⟨m.repository_url, getCommon_log env m.repository_url _⟩⟩

theorem ingestSsdcDp_ok_parts (env : Env) (p : LtdProjectModel)
    (org : LtdOrganizationModel) (d : SpherexDpDocument × List LogEvent)
    (h : ingestSsdcDp env p org = Except.ok d) :
    d.1.project_id = p.slug ∧
      ∃ u, d.2 = (createGithubRepoClient env (some u)).2 := by
  cases hf : env.fetchDp p.slug with
  | error e2 => simp [ingestSsdcDp, hf] at h
  | ok m =>
    simp only [ingestSsdcDp, hf] at h
    cases h
    exact ⟨rfl, ⟨m.repository_url, getCommon_log env m.repository_url _⟩⟩

theorem ingestSsdcTr_ok_parts (env : Env) (p : LtdProjectModel)
    (org : LtdOrganizationModel) (d : SpherexTrDocument × List LogEvent)
    (h : ingestSsdcTr env p org = Except.ok d) :
    d.1.project_id = p.slug ∧
      ∃ u, d.2 = (createGithubRepoClient env (some u)).2 := by
  cases hf : env.fetchTr p.slug with
  | error e2 => simp [ingestSsdcTr, hf] at h
  | ok m =>
    simp only [ingestSsdcTr, hf] at h
    cases h
    exact ⟨rfl, ⟨m.repository_url, getCommon_log env m.repository_url _⟩⟩

theorem ingestSsdcTn_ok_parts (env : Env) (p : LtdProjectModel)
    (org : LtdOrganizationModel) (d : SpherexTnDocument × List LogEvent)
    (h : ingestSsdcTn env p org = Except.ok d) :
    d.1.project_id = p.slug ∧
      ∃ u, d.2 = (createGithubRepoClient env (some u)).2 := by
  cases hf : env.fetchTn p.slug with
  | error e2 => simp [ingestSsdcTn, hf] at h
  | ok m =>
    simp only [ingestSsdcTn, hf] at h
    cases h
    exact ⟨rfl, ⟨m.repository_url, getCommon_log env m.repository_url _⟩⟩

theorem ingestSsdcOp_ok_parts (env : Env) (p : LtdProjectModel)
    (org : LtdOrganizationModel) (d : SpherexOpDocument × List LogEvent)
    (h : ingestSsdcOp env p org = Except.ok d) :
    d.1.project_id = p.slug ∧
      ∃ u, d.2 = (createGithubRepoClient env (some u)).2 := by
  cases hf : env.fetchOp p.slug with
  | error e2 => simp [ingestSsdcOp, hf] at h
  | ok m =>
    simp only [ingestSsdcOp, hf] at h
    cases h
    exact ⟨rfl, ⟨m.repository_url, getCommon_log env m.repository_url _⟩⟩

theorem ingestResult_ok_parts (env : Env) (org : LtdOrganizationModel)
    (p : LtdProjectModel) (r : CatWrite × List LogEvent)
    (h : ingestResult env org p = some (Except.ok r)) :
    CatWrite.key r.1 = p.slug ∧
      ∃ u, r.2 = (createGithubRepoClient env (some u)).2 := by
  simp only [ingestResult] at h
  split at h
  · injection h with h2
    rcases except_map_ok_decomp _ _ _ h2 with ⟨d, hd, hr⟩
    rcases ingestSsdcMs_ok_parts env p org d hd with ⟨hpid, u, hu⟩
    subst hr
    exact ⟨hpid, ⟨u, hu⟩⟩
  ·
    split at h
    · injection h with h2
      rcases except_map_ok_decomp _ _ _ h2 with ⟨d, hd, hr⟩
      rcases ingestSsdcPm_ok_parts env p org d hd with ⟨hpid, u, hu⟩
      subst hr
      exact ⟨hpid, ⟨u, hu⟩⟩
    ·
      split at h
      · injection h with h2
        rcases except_map_ok_decomp _ _ _ h2 with ⟨d, hd, hr⟩
        rcases ingestSsdcIf_ok_parts env p org d hd with ⟨hpid, u, hu⟩
        subst hr
        exact ⟨hpid, ⟨u, hu⟩⟩
      ·
        split at h
        · injection h with h2
          rcases except_map_ok_decomp _ _ _ h2 with ⟨d, hd, hr⟩
          rcases ingestSsdcDp_ok_parts env p org d hd with ⟨hpid, u, hu⟩
          subst hr
          exact ⟨hpid, ⟨u, hu⟩⟩
        ·
          split at h
          · injection h with h2
            rcases except_map_ok_decomp _ _ _ h2 with ⟨d, hd, hr⟩
            rcases ingestSsdcTr_ok_parts env p org d hd with ⟨hpid, u, hu⟩
            subst hr
            exact ⟨hpid, ⟨u, hu⟩⟩
          ·
            split at h
            · injection h with h2
              rcases except_map_ok_decomp _ _ _ h2 with ⟨d, hd, hr⟩
              rcases ingestSsdcTn_ok_parts env p org d hd with ⟨hpid, u, hu⟩
              subst hr
              exact ⟨hpid, ⟨u, hu⟩⟩
            ·
              split at h
              · injection h with h2
                rcases except_map_ok_decomp _ _ _ h2 with ⟨d, hd, hr⟩
                rcases ingestSsdcOp_ok_parts env p org d hd with ⟨hpid, u, hu⟩
                subst hr
                exact ⟨hpid, ⟨u, hu⟩⟩
              · exact absurd h (by simp)

theorem filter_mentionsSlug_of_ok (env : Env) (org : LtdOrganizationModel)
    (p : LtdProjectModel) (r : CatWrite × List LogEvent) (slug : String)
    (h : ingestResult env org p = some (Except.ok r)) :
    r.2.filter (mentionsSlug slug) = [] := by
  rcases (ingestResult_ok_parts env org p r h).2 with ⟨u, hu⟩
  rw [hu]
  rcases createClient_log env (some u) with h0 | ⟨url, h0⟩
  · rw [h0]; rfl
  · rw [h0]; simp [mentionsSlug]

theorem projectEvents_filter_of_not_error (env : Env)
    (org : LtdOrganizationModel) (p : LtdProjectModel) (slug : String)
    (h : isErrorResult (ingestResult env org p) = false) :
    (projectEvents env org p).filter (mentionsSlug slug) = [] := by
  cases hr : ingestResult env org p with
  | none => simp [projectEvents, hr]
  | some r =>
    cases r with
    | error e =>
      rw [hr] at h
      simp [isErrorResult] at h
    | ok r =>
      simp only [projectEvents, hr]
      exact filter_mentionsSlug_of_ok env org p r slug hr

theorem repoLookups_applyWrite_ne (repo : ProjectRepository) (w : CatWrite)
    (k : String) (h : CatWrite.key w ≠ k) :
    repoLookups (applyWrite repo w) k = repoLookups repo k := by
  cases w with
  | ms d =>
    have h2 : d.project_id ≠ k := h
    simp only [applyWrite, repoLookups]
    rw [lookupKey_storeSet_ne _ _ _ _ (fun hc => h2 hc.symm)]
  | pm d =>
    have h2 : d.project_id ≠ k := h
    simp only [applyWrite, repoLookups]
    rw [lookupKey_storeSet_ne _ _ _ _ (fun hc => h2 hc.symm)]
  | ifc d =>
    have h2 : d.project_id ≠ k := h
    simp only [applyWrite, repoLookups]
    rw [lookupKey_storeSet_ne _ _ _ _ (fun hc => h2 hc.symm)]
  | dp d =>
    have h2 : d.project_id ≠ k := h
    simp only [applyWrite, repoLookups]
    rw [lookupKey_storeSet_ne _ _ _ _ (fun hc => h2 hc.symm)]
  | tr d =>
    have h2 : d.project_id ≠ k := h
    simp only [applyWrite, repoLookups]
    rw [lookupKey_storeSet_ne _ _ _ _ (fun hc => h2 hc.symm)]
  | tn d =>
    have h2 : d.project_id ≠ k := h
    simp only [applyWrite, repoLookups]
    rw [lookupKey_storeSet_ne _ _ _ _ (fun hc => h2 hc.symm)]
  | op d =>
    have h2 : d.project_id ≠ k := h
    simp only [applyWrite, repoLookups]
    rw [lookupKey_storeSet_ne _ _ _ _ (fun hc => h2 hc.symm)]

theorem runProjects_lookup_preserved (env : Env)
    (org : LtdOrganizationModel) (ps : List LtdProjectModel) (k : String)
    (h : ∀ p ∈ ps, p.slug ≠ k) :
    ∀ s : RunState,
      repoLookups (ps.foldl (ingestProject env org) s).repo k =
        repoLookups s.repo k := by
  induction ps with
  | nil => intro s; rfl
  | cons p rest ih =>
    intro s
    rw [List.foldl_cons,
      ih (fun q hq => h q (List.mem_cons_of_mem _ hq))]
    cases hr : ingestResult env org p with
    | none => rw [ingestProject_of_none env org s p hr]
    | some r =>
      cases r with
      | error e => rw [ingestProject_of_error env org s p e hr]
      | ok r =>
        rw [ingestProject_of_ok env org s p r hr]
        have hkey : CatWrite.key r.1 = p.slug :=
          (ingestResult_ok_parts env org p r hr).1
        exact repoLookups_applyWrite_ne s.repo r.1 k
          (hkey ▸ h p (List.mem_cons_self _ _))

/-! ### Claim C2 -/

/-- C2: for every run over the listed projects in which exactly one project
`pk` raises `MetadataError` during its ingestion (every other listed
project's dispatch outcome is error-free, and slugs are distinct as the LTD
API guarantees), the run completes (the fold is total — the error is caught
inside `_ingest_project`), the Category Store receives exactly the upserts
of the other projects (the final stores equal those of the run without
`pk`), exactly one warning referencing `pk`'s slug is logged, and `pk`'s
previously stored value, in every category store, is left unchanged. -/
theorem c2_metadata_failure_isolation (env : Env)
    (org : LtdOrganizationModel) (s : RunState)
    (l1 l2 : List LtdProjectModel) (pk : LtdProjectModel)
    (e : MetadataError)
    (hfail : ingestResult env org pk = some (Except.error e))
    (hok : ∀ p ∈ l1 ++ l2, isErrorResult (ingestResult env org p) = false)
    (hslug : ∀ p ∈ l1 ++ l2, p.slug ≠ pk.slug) :
    ((l1 ++ pk :: l2).foldl (ingestProject env org) s).repo =
      ((l1 ++ l2).foldl (ingestProject env org) s).repo ∧
    ((l1 ++ pk :: l2).foldl (ingestProject env org) s).warnings.filter
        (mentionsSlug pk.slug) =
      s.warnings.filter (mentionsSlug pk.slug) ++
        [LogEvent.metadataWarning pk.slug e.message] ∧
    repoLookups ((l1 ++ pk :: l2).foldl (ingestProject env org) s).repo
        pk.slug =
      repoLookups s.repo pk.slug := by
  have hrepo :
      ((l1 ++ pk :: l2).foldl (ingestProject env org) s).repo =
        ((l1 ++ l2).foldl (ingestProject env org) s).repo := by
    rw [List.foldl_append, List.foldl_append, List.foldl_cons]
    apply runProjects_repo_congr
    rw [ingestProject_of_error env org _ pk e hfail]
  refine ⟨hrepo, ?_, ?_⟩
  · rw [runProjects_warnings, List.filter_append]
    have hev :
        ∀ p2 ∈ l1 ++ l2,
          (projectEvents env org p2).filter (mentionsSlug pk.slug) = [] :=
      fun p2 hp2 =>
        projectEvents_filter_of_not_error env org p2 pk.slug (hok p2 hp2)
    have h1 :
        ((l1.map (projectEvents env org)).flatten).filter
          (mentionsSlug pk.slug) = [] := by
      refine join_filter_nil _ _ (fun l hl => ?_)
      rcases List.mem_map.mp hl with ⟨p2, hp2, rfl⟩
      exact hev p2 (List.mem_append_left _ hp2)
    have h2 :
        ((l2.map (projectEvents env org)).flatten).filter
          (mentionsSlug pk.slug) = [] := by
      refine join_filter_nil _ _ (fun l hl => ?_)
      rcases List.mem_map.mp hl with ⟨p2, hp2, rfl⟩
      exact hev p2 (List.mem_append_right _ hp2)
    have hpk :
        (projectEvents env org pk).filter (mentionsSlug pk.slug) =
          [LogEvent.metadataWarning pk.slug e.message] := by
      simp [projectEvents, hfail, mentionsSlug]
    rw [List.map_append, List.flatten_append, List.filter_append,
      List.map_cons, List.flatten_cons, List.filter_append,
      h1, hpk, h2]
    simp
  · rw [hrepo]
    exact runProjects_lookup_preserved env org (l1 ++ l2) pk.slug hslug s

/-! ### Degrade-to-default machinery -/

theorem getCommon_of_no_client (env : Env) (u : String) (dflt : Int)
    (h : (createGithubRepoClient env (some u)).1 = none) :
    getCommonGithubMetadata env u dflt =
      (({ open_issue_count := 0, open_pr_count := 0,
          issue_url := u ++ "/issues", pr_url := u ++ "/pulls" },
        none, dflt), (createGithubRepoClient env (some u)).2) := by
  simp only [getCommonGithubMetadata, h]

theorem ingestSsdcMs_ok_fields (env : Env) (p : LtdProjectModel)
    (org : LtdOrganizationModel) (d : SpherexMsDocument × List LogEvent)
    (h : ingestSsdcMs env p org = Except.ok d)
    (hcli : (createGithubRepoClient env (some d.1.github_url)).1 = none) :
    d.1.github_issues =
      { open_issue_count := 0, open_pr_count := 0,
        issue_url := d.1.github_url ++ "/issues",
        pr_url := d.1.github_url ++ "/pulls" } ∧
    d.1.github_release = none ∧
    d.1.latest_commit_datetime = p.default_edition.date_rebuilt := by
  cases hf : env.fetchMs p.slug with
  | error e2 => simp [ingestSsdcMs, hf] at h
  | ok m =>
    simp only [ingestSsdcMs, hf] at h
    cases h
    have hcli2 :
        (createGithubRepoClient env (some m.repository_url)).1 = none := hcli
    refine ⟨?_, ?_, ?_⟩
    · rw [getCommon_of_no_client env m.repository_url _ hcli2]
    · rw [getCommon_of_no_client env m.repository_url _ hcli2]
    · rw [getCommon_of_no_client env m.repository_url _ hcli2]

theorem ingestSsdcPm_ok_fields (env : Env) (p : LtdProjectModel)
    (org : LtdOrganizationModel) (d : SpherexPmDocument × List LogEvent)
    (h : ingestSsdcPm env p org = Except.ok d)
    (hcli : (createGithubRepoClient env (some d.1.github_url)).1 = none) :
    d.1.github_issues =
      { open_issue_count := 0, open_pr_count := 0,
        issue_url := d.1.github_url ++ "/issues",
        pr_url := d.1.github_url ++ "/pulls" } ∧
    d.1.github_release = none ∧
    d.1.latest_commit_datetime = p.default_edition.date_rebuilt := by
  cases hf : env.fetchPm p.slug with
  | error e2 => simp [ingestSsdcPm, hf] at h
  | ok m =>
    simp only [ingestSsdcPm, hf] at h
    cases h
    have hcli2 :
        (createGithubRepoClient env (some m.repository_url)).1 = none := hcli
    refine ⟨?_, ?_, ?_⟩
    · rw [getCommon_of_no_client env m.repository_url _ hcli2]
    · rw [getCommon_of_no_client env m.repository_url _ hcli2]
    · rw [getCommon_of_no_client env m.repository_url _ hcli2]

theorem ingestSsdcIf_ok_fields (env : Env) (p : LtdProjectModel)
    (org : LtdOrganizationModel) (d : SpherexIfDocument × List LogEvent)
    (h : ingestSsdcIf env p org = Except.ok d)
    (hcli : (createGithubRepoClient env (some d.1.github_url)).1 = none) :
    d.1.github_issues =
      { open_issue_count := 0, open_pr_count := 0,
        issue_url := d.1.github_url ++ "/issues",
        pr_url := d.1.github_url ++ "/pulls" } ∧
    d.1.github_release = none ∧
    d.1.latest_commit_datetime = p.default_edition.date_rebuilt := by
  cases hf : env.fetchIf p.slug with
  | error e2 => simp [ingestSsdcIf, hf] at h
  | ok m =>
    simp only [ingestSsdcIf, hf] at h
    cases h
    have hcli2 :
        (createGithubRepoClient env (some m.repository_url)).1 = none := hcli
    refine ⟨?_, ?_, ?_⟩
    · rw [getCommon_of_no_client env m.repository_url _ hcli2]
    · rw [getCommon_of_no_client env m.repository_url _ hcli2]
    · rw [getCommon_of_no_client env m.repository_url _ hcli2]

theorem ingestSsdcDp_ok_fields (env : Env) (p : LtdProjectModel)
    (org : LtdOrganizationModel) (d : SpherexDpDocument × List LogEvent)
    (h : ingestSsdcDp env p org = Except.ok d)
    (hcli : (createGithubRepoClient env (some d.1.github_url)).1 = none) :
    d.1.github_issues =
      { open_issue_count := 0, open_pr_count := 0,
        issue_url := d.1.github_url ++ "/issues",
        pr_url := d.1.github_url ++ "/pulls" } ∧
    d.1.github_release = none ∧
    d.1.latest_commit_datetime = p.default_edition.date_rebuilt := by
  cases hf : env.fetchDp p.slug with
  | error e2 => simp [ingestSsdcDp, hf] at h
  | ok m =>
    simp only [ingestSsdcDp, hf] at h
    cases h
    have hcli2 :
        (createGithubRepoClient env (some m.repository_url)).1 = none := hcli
    refine ⟨?_, ?_, ?_⟩
    · rw [getCommon_of_no_client env m.repository_url _ hcli2]
    · rw [getCommon_of_no_client env m.repository_url _ hcli2]
    · rw [getCommon_of_no_client env m.repository_url _ hcli2]

theorem ingestSsdcTr_ok_fields (env : Env) (p : LtdProjectModel)
    (org : LtdOrganizationModel) (d : SpherexTrDocument × List LogEvent)
    (h : ingestSsdcTr env p org = Except.ok d)
    (hcli : (createGithubRepoClient env (some d.1.github_url)).1 = none) :
    d.1.github_issues =
      { open_issue_count := 0, open_pr_count := 0,
        issue_url := d.1.github_url ++ "/issues",
        pr_url := d.1.github_url ++ "/pulls" } ∧
    d.1.github_release = none ∧
    d.1.latest_commit_datetime = p.default_edition.date_rebuilt := by
  cases hf : env.fetchTr p.slug with
  | error e2 => simp [ingestSsdcTr, hf] at h
  | ok m =>
    simp only [ingestSsdcTr, hf] at h
    cases h
    have hcli2 :
        (createGithubRepoClient env (some m.repository_url)).1 = none := hcli
    refine ⟨?_, ?_, ?_⟩
    · rw [getCommon_of_no_client env m.repository_url _ hcli2]
    · rw [getCommon_of_no_client env m.repository_url _ hcli2]
    · rw [getCommon_of_no_client env m.repository_url _ hcli2]

theorem ingestSsdcTn_ok_fields (env : Env) (p : LtdProjectModel)
    (org : LtdOrganizationModel) (d : SpherexTnDocument × List LogEvent)
    (h : ingestSsdcTn env p org = Except.ok d)
    (hcli : (createGithubRepoClient env (some d.1.github_url)).1 = none) :
    d.1.github_issues =
      { open_issue_count := 0, open_pr_count := 0,
        issue_url := d.1.github_url ++ "/issues",
        pr_url := d.1.github_url ++ "/pulls" } ∧
    d.1.github_release = none ∧
    d.1.latest_commit_datetime = p.default_edition.date_rebuilt := by
  cases hf : env.fetchTn p.slug with
  | error e2 => simp [ingestSsdcTn, hf] at h
  | ok m =>
    simp only [ingestSsdcTn, hf] at h
    cases h
    have hcli2 :
        (createGithubRepoClient env (some m.repository_url)).1 = none := hcli
    refine ⟨?_, ?_, ?_⟩
    · rw [getCommon_of_no_client env m.repository_url _ hcli2]
    · rw [getCommon_of_no_client env m.repository_url _ hcli2]
    · rw [getCommon_of_no_client env m.repository_url _ hcli2]

theorem ingestSsdcOp_ok_fields (env : Env) (p : LtdProjectModel)
    (org : LtdOrganizationModel) (d : SpherexOpDocument × List LogEvent)
    (h : ingestSsdcOp env p org = Except.ok d)
    (hcli : (createGithubRepoClient env (some d.1.github_url)).1 = none) :
    d.1.github_issues =
      { open_issue_count := 0, open_pr_count := 0,
        issue_url := d.1.github_url ++ "/issues",
        pr_url := d.1.github_url ++ "/pulls" } ∧
    d.1.github_release = none ∧
    d.1.latest_commit_datetime = p.default_edition.date_rebuilt := by
  cases hf : env.fetchOp p.slug with
  | error e2 => simp [ingestSsdcOp, hf] at h
  | ok m =>
    simp only [ingestSsdcOp, hf] at h
    cases h
    have hcli2 :
        (createGithubRepoClient env (some m.repository_url)).1 = none := hcli
    refine ⟨?_, ?_, ?_⟩
    · rw [getCommon_of_no_client env m.repository_url _ hcli2]
    · rw [getCommon_of_no_client env m.repository_url _ hcli2]
    · rw [getCommon_of_no_client env m.repository_url _ hcli2]

/-! ### Claim C6 -/

/-- C6: for every project whose repository URL has no configured source-host
installation/credential (creating a GitHub client for the document's
repository URL yields `none`), ingestion of that project still succeeds and
stores a document with `open_issue_count = 0`, `open_pr_count = 0`,
`issue_url` and `pr_url` derived from the repository URL,
`github_release = None`, and `latest_commit_datetime` equal to the
caller-supplied fallback timestamp (the project's default-edition rebuild
date). -/
theorem c6_no_credential_defaults (env : Env) (org : LtdOrganizationModel)
    (p : LtdProjectModel) (s : RunState) (w : CatWrite)
    (log : List LogEvent)
    (hok : ingestResult env org p = some (Except.ok (w, log)))
    (hcli :
      (createGithubRepoClient env (some (CatWrite.githubUrl w))).1 = none) :
    ingestProject env org s p =
      { s with
        repo := applyWrite s.repo w
        warnings := s.warnings ++ log
        fetched := s.fetched ++ [p.slug] } ∧
    CatWrite.githubIssues w =
      { open_issue_count := 0, open_pr_count := 0,
        issue_url := CatWrite.githubUrl w ++ "/issues",
        pr_url := CatWrite.githubUrl w ++ "/pulls" } ∧
    CatWrite.githubRelease w = none ∧
    CatWrite.latestCommit w = p.default_edition.date_rebuilt := by
  refine ⟨ingestProject_of_ok env org s p (w, log) hok, ?_⟩
  simp only [ingestResult] at hok
  split at hok
  · injection hok with h2
    rcases except_map_ok_decomp _ _ _ h2 with ⟨d, hd, hr⟩
    injection hr with hw hl
    subst hw
    exact ingestSsdcMs_ok_fields env p org d hd hcli
  ·
    split at hok
    · injection hok with h2
      rcases except_map_ok_decomp _ _ _ h2 with ⟨d, hd, hr⟩
      injection hr with hw hl
      subst hw
      exact ingestSsdcPm_ok_fields env p org d hd hcli
    ·
      split at hok
      · injection hok with h2
        rcases except_map_ok_decomp _ _ _ h2 with ⟨d, hd, hr⟩
        injection hr with hw hl
        subst hw
        exact ingestSsdcIf_ok_fields env p org d hd hcli
      ·
        split at hok
        · injection hok with h2
          rcases except_map_ok_decomp _ _ _ h2 with ⟨d, hd, hr⟩
          injection hr with hw hl
          subst hw
          exact ingestSsdcDp_ok_fields env p org d hd hcli
        ·
          split at hok
          · injection hok with h2
            rcases except_map_ok_decomp _ _ _ h2 with ⟨d, hd, hr⟩
            injection hr with hw hl
            subst hw
            exact ingestSsdcTr_ok_fields env p org d hd hcli
          ·
            split at hok
            · injection hok with h2
              rcases except_map_ok_decomp _ _ _ h2 with ⟨d, hd, hr⟩
              injection hr with hw hl
              subst hw
              exact ingestSsdcTn_ok_fields env p org d hd hcli
            ·
              split at hok
              · injection hok with h2
                rcases except_map_ok_decomp _ _ _ h2 with ⟨d, hd, hr⟩
                injection hr with hw hl
                subst hw
                exact ingestSsdcOp_ok_fields env p org d hd hcli
              · exact absurd hok (by simp)

/-- Witness for C6: `sampleProjectOk` ingested under `sampleEnv`, where no
GitHub App factory is configured, stores `sampleMsDoc` with the default
GitHub fields. -/
theorem c6_no_credential_defaults_witness :
    ingestResult sampleEnv sampleOrg sampleProjectOk =
      some (Except.ok (CatWrite.ms sampleMsDoc, [])) ∧
    (createGithubRepoClient sampleEnv
      (some (CatWrite.githubUrl (CatWrite.ms sampleMsDoc)))).1 = none ∧
    (ingestProject sampleEnv sampleOrg sampleState sampleProjectOk =
      { sampleState with
        repo := applyWrite sampleState.repo (CatWrite.ms sampleMsDoc)
        warnings := sampleState.warnings ++ []
        fetched := sampleState.fetched ++ [sampleProjectOk.slug] } ∧
    CatWrite.githubIssues (CatWrite.ms sampleMsDoc) =
      { open_issue_count := 0, open_pr_count := 0,
        issue_url := CatWrite.githubUrl (CatWrite.ms sampleMsDoc) ++ "/issues",
        pr_url := CatWrite.githubUrl (CatWrite.ms sampleMsDoc) ++ "/pulls" } ∧
    CatWrite.githubRelease (CatWrite.ms sampleMsDoc) = none ∧
    CatWrite.latestCommit (CatWrite.ms sampleMsDoc) =
      sampleProjectOk.default_edition.date_rebuilt) :=
  ⟨by decide, by decide,
    c6_no_credential_defaults sampleEnv sampleOrg sampleProjectOk sampleState
      (CatWrite.ms sampleMsDoc) [] (by decide) (by decide)⟩

/-- Witness for C2: a two-project run under `sampleEnv` in which
`sampleProjectBad` raises `MetadataError` and `sampleProjectOk`
succeeds. -/
theorem c2_metadata_failure_isolation_witness :
    ingestResult sampleEnv sampleOrg sampleProjectBad =
      some (Except.error sampleError) ∧
    (∀ p ∈ [sampleProjectOk] ++ ([] : List LtdProjectModel),
      isErrorResult (ingestResult sampleEnv sampleOrg p) = false) ∧
    (∀ p ∈ [sampleProjectOk] ++ ([] : List LtdProjectModel),
      p.slug ≠ sampleProjectBad.slug) ∧
    ((([sampleProjectOk] ++ sampleProjectBad :: []).foldl
        (ingestProject sampleEnv sampleOrg) sampleState).repo =
      (([sampleProjectOk] ++ []).foldl (ingestProject sampleEnv sampleOrg)
        sampleState).repo ∧
    (([sampleProjectOk] ++ sampleProjectBad :: []).foldl
        (ingestProject sampleEnv sampleOrg) sampleState).warnings.filter
        (mentionsSlug sampleProjectBad.slug) =
      sampleState.warnings.filter (mentionsSlug sampleProjectBad.slug) ++
        [LogEvent.metadataWarning sampleProjectBad.slug
          sampleError.message] ∧
    repoLookups (([sampleProjectOk] ++ sampleProjectBad :: []).foldl
        (ingestProject sampleEnv sampleOrg) sampleState).repo
        sampleProjectBad.slug =
      repoLookups sampleState.repo sampleProjectBad.slug) :=
  ⟨by decide, by decide, by decide,
    c2_metadata_failure_isolation sampleEnv sampleOrg sampleState
      [sampleProjectOk] [] sampleProjectBad sampleError
      (by decide) (by decide) (by decide)⟩

/-! ### Claim C7 -/

/-- C7: if the object-store key pair (AWS access key id or secret) is not
configured, a live-data run raises the configuration error before any
per-project ingestion starts: the returned state is the input state
unchanged — no document upserted (`repo` unchanged) and no per-project
metadata fetched (the `fetched` trace unchanged). -/
theorem c7_missing_aws_keys_fatal (cfg : PortalConfig) (env : Env)
    (s : RunState)
    (h : cfg.aws_access_key_id = none ∨ cfg.aws_access_key_secret = none) :
    bootstrapFromApi cfg env s = (Except.error awsKeysMessage, s) := by
  cases hid : cfg.aws_access_key_id with
  | none => simp [bootstrapFromApi, hid]
  | some kid =>
    cases hsec : cfg.aws_access_key_secret with
    | none => simp [bootstrapFromApi, hid, hsec]
    | some sec =>
      rcases h with h | h
      · rw [hid] at h
        exact Option.noConfusion h
      · rw [hsec] at h
        exact Option.noConfusion h

/-- Witness for C7: a configuration with both keys absent. -/
theorem c7_missing_aws_keys_fatal_witness :
    (sampleConfigNoKeys.aws_access_key_id = none ∨
      sampleConfigNoKeys.aws_access_key_secret = none) ∧
    bootstrapFromApi sampleConfigNoKeys sampleEnv sampleState =
      (Except.error awsKeysMessage, sampleState) :=
  ⟨Or.inl rfl,
    c7_missing_aws_keys_fatal sampleConfigNoKeys sampleEnv sampleState
      (Or.inl rfl)⟩

/-! ### Claim C8 -/

/-- C8: for every project whose slug starts with none of the seven category
codes, `_ingest_project` returns the run state unchanged: no error is
raised (the dispatch is total), no metadata is fetched (the `fetched` trace
is unchanged) and every category store is unchanged. -/
theorem c8_unrecognized_slug_skipped (env : Env)
    (org : LtdOrganizationModel) (s : RunState) (p : LtdProjectModel)
    (h : ∀ c ∈ categoryCodes, pyStartsWith p.slug c = false) :
    ingestProject env org s p = s := by
  have h1 := h "ssdc-ms" (by simp [categoryCodes])
  have h2 := h "ssdc-pm" (by simp [categoryCodes])
  have h3 := h "ssdc-if" (by simp [categoryCodes])
  have h4 := h "ssdc-dp" (by simp [categoryCodes])
  have h5 := h "ssdc-tr" (by simp [categoryCodes])
  have h6 := h "ssdc-tn" (by simp [categoryCodes])
  have h7 := h "ssdc-op" (by simp [categoryCodes])
  have hres : ingestResult env org p = none := by
    simp [ingestResult, h1, h2, h3, h4, h5, h6, h7]
  exact ingestProject_of_none env org s p hres

/-- Witness for C8: the slug `sphx-001` matches no category code. -/
theorem c8_unrecognized_slug_skipped_witness :
    (∀ c ∈ categoryCodes,
      pyStartsWith sampleProjectOther.slug c = false) ∧
    ingestProject sampleEnv sampleOrg sampleState sampleProjectOther =
      sampleState :=
  ⟨by decide,
    c8_unrecognized_slug_skipped sampleEnv sampleOrg sampleState
      sampleProjectOther (by decide)⟩

/-! ### Claim C9 -/

theorem pyTake_append_of_length (s t : String) (n : Nat)
    (h : s.toList.length = n) : pyTake (s ++ t) n = s := by
  rw [pyTake, show (s ++ t).toList = s.toList ++ t.toList from
    String.data_append .., List.take_left' h, String.asString_toList]

/-- C9 (implicit): for every repository URL beginning with
`https://github.com/`, the URL parser returns owner `"https:"` and repo
`""`: it slices only the first 19 characters (exactly the scheme and host),
so the real owner and repository name are never extracted, and an
installation client created from this pair can never address the real
repository. -/
theorem c9_parse_github_url_truncated (rest : String) :
    parseGithubRepoUrl ("https://github.com/" ++ rest) = ("https:", "") := by
  have h19 : ("https://github.com/" : String).toList.length = 19 := by decide
  simp only [parseGithubRepoUrl]
  rw [pyTake_append_of_length _ _ _ h19]
  decide

/-! ### Claim C10 -/

/-- C10 (implicit): the seed loader's data-product entries are exported
with `series = "SSDC-IF"` rather than `"SSDC-DP"`, while every other
category's seed model sets `series` to its own category code. -/
theorem c10_mock_dp_series :
    (∀ m : SsdcDpModel, (SsdcDpModel.domainModel m).series = "SSDC-IF") ∧
    ("SSDC-IF" : String) ≠ "SSDC-DP" ∧
    (∀ m : SsdcMsModel, (SsdcMsModel.domainModel m).series = "SSDC-MS") ∧
    (∀ m : SsdcPmModel, (SsdcPmModel.domainModel m).series = "SSDC-PM") ∧
    (∀ m : SsdcIfModel, (SsdcIfModel.domainModel m).series = "SSDC-IF") ∧
    (∀ m : SsdcTrModel, (SsdcTrModel.domainModel m).series = "SSDC-TR") ∧
    (∀ m : SsdcTnModel, (SsdcTnModel.domainModel m).series = "SSDC-TN") ∧
    (∀ m : SsdcOpModel, (SsdcOpModel.domainModel m).series = "SSDC-OP") :=
  ⟨fun _ => rfl, by decide, fun _ => rfl, fun _ => rfl, fun _ => rfl,
    fun _ => rfl, fun _ => rfl, fun _ => rfl⟩

/-! ### Claim C1 -/

/-- C1: the issue-count fetch pages through the open-issues listing and
classifies each item (the classification loop `issueClassifyCounts` counts
one open issue here), but the returned `GitHubIssueCount` carries literal
zeros: on a listing with one open issue and no pull requests, the returned
`open_issue_count` is `0`, not the number of items without a `pull_request`
field.  The counters accumulated by the source are dead — evidence that the
zeros are a slip, not intent. -/
theorem c1_issue_counts_discarded :
    (issueClassifyCounts c1Items).1 = 1 ∧
    (issueClassifyCounts c1Items).2 = 0 ∧
    ((c1Items.countP (fun i => !i.has_pull_request) : Nat) : Int) = 1 ∧
    (getGithubIssueCount c1Repo c1Items).open_issue_count = 0 ∧
    (getGithubIssueCount c1Repo c1Items).open_issue_count ≠
      ((c1Items.countP (fun i => !i.has_pull_request) : Nat) : Int) := by
  refine ⟨rfl, rfl, rfl, rfl, ?_⟩
  decide

end SpherexPortal
